import Mathlib

/-!
Shallow embedding of the analysis engine of `src/modules/AnalysisEngine.ts`
(the core of the repository): column classification, the five insight
analyzers (trend, correlation, anomaly, segmentation, prediction), and the
final confidence sort, together with proofs of the specification claims.

Modelling conventions:
* JS numbers are modelled as exact rationals `ℚ`.  A JS `NaN` produced by
  an operation is modelled as `Option.none`.  `±Infinity` is unreachable in
  the modelled code paths (at every division site, a zero denominator forces
  a zero or NaN numerator; see the comments and lemmas next to each
  definition), so it has no representation.
* Quantities of the form `c·√d` (standard deviations, Pearson correlations
  and the confidences derived from them) are represented exactly by the
  pair type `RQ` whose real value is `c * Real.sqrt d`; comparisons on such
  values are decidable.
* `Array.prototype.sort` (stable for all ECMAScript 2019+ engines) is
  modelled by `jsStableSort`, a stable insertion sort; a stable sort by a
  total preorder is unique, so any conforming engine produces this list.
* The external `ml-kmeans` library uses random initialisation and is
  deliberately non-deterministic (spec §9); it is modelled as an abstract
  function parameter `KMeansFn`.
-/

/- Batteries marks the `Rat` field operations `@[irreducible]`; restore the
default reducibility inside this file so that concrete pipeline runs can be
evaluated by `decide`. -/
attribute [local semireducible] Rat.add Rat.mul Rat.sub Rat.inv

namespace AnalysisEngine

/-- A scalar cell value of a record: a number, a string, or the JS
`undefined` obtained when a record lacks the column. -/
inductive Value where
  | num (q : ℚ)
  | str (s : String)
  | undef
deriving DecidableEq, Repr

/-- A record: ordered column-name/value bindings (JS object, insertion
order of string keys). -/
abbrev Record := List (String × Value)

/-- A dataset: ordered sequence of records. -/
abbrev Dataset := List Record

/-- `row[key]` property access; `undefined` when the key is absent. -/
def getVal (r : Record) (k : String) : Value :=
  ((r.find? fun p => p.1 = k).map Prod.snd).getD (.undef)

/-- `Object.keys(row)`. -/
def recKeys (r : Record) : List String := r.map Prod.fst

/-! ### Models of the JS number/date builtins used by the engine -/

/-- Leading decimal digits of a character list, and the rest. -/
def takeDigits : List Char → List Char × List Char
  | [] => ([], [])
  | c :: cs =>
    if c.isDigit then
      let p := takeDigits cs
      (c :: p.1, p.2)
    else ([], c :: cs)

/-- Numeric value of a digit list read as an integer. -/
def digitsVal (ds : List Char) : ℕ :=
  ds.foldl (fun acc c => 10 * acc + (c.toNat - '0'.toNat)) 0

/-- Numeric value of a digit list read as a fractional part `0.d₁d₂…`. -/
def fracVal (ds : List Char) : ℚ :=
  ds.foldr (fun c acc => (((c.toNat - '0'.toNat : ℕ) : ℚ) + acc) / 10) 0

/-- Strip leading and trailing whitespace from a character list (the JS
`WhiteSpace`/`LineTerminator` trimming applied by `parseFloat` and
`Number`). -/
def trimChars (cs : List Char) : List Char :=
  ((cs.dropWhile Char.isWhitespace).reverse.dropWhile Char.isWhitespace).reverse

/-- Consume an optional sign, returning the sign as `±1` and the rest. -/
def takeSign : List Char → ℚ × List Char
  | '-' :: cs => (-1, cs)
  | '+' :: cs => (1, cs)
  | cs => (1, cs)

/-- Parse a decimal literal `[+-]?digits[.digits]` at the front of a
character list; returns its value and the unconsumed rest, or `none` if no
digit is found.  (Model of the decimal path of the JS numeric grammar;
exponents, hex literals and the `Infinity` keyword are not modelled — no
claim and no concrete input used below involves them.) -/
def parseDec (cs : List Char) : Option (ℚ × List Char) :=
  let sr := takeSign cs
  let ip := takeDigits sr.2
  match ip.2 with
  | '.' :: cs2 =>
    let fp := takeDigits cs2
    if ip.1.isEmpty ∧ fp.1.isEmpty then none
    else some (sr.1 * ((digitsVal ip.1 : ℚ) + fracVal fp.1), fp.2)
  | rest =>
    if ip.1.isEmpty then none
    else some (sr.1 * (digitsVal ip.1 : ℚ), rest)

/-- `parseFloat(v)`: skip leading whitespace, parse the longest numeric
prefix; `none` models `NaN`.  On a number argument JS stringifies and
re-parses, which is the identity on the values modelled here. -/
def jsParseFloat : Value → Option ℚ
  | .num q => some q
  | .str s => (parseDec (trimChars s.toList)).map Prod.fst
  | .undef => none

/-- `Number(v)` coercion as used by the global `isFinite`: the whole
(trimmed) string must be numeric; an empty/whitespace string is `0`;
`undefined` is `NaN` (`none`). -/
def jsToNumber : Value → Option ℚ
  | .num q => some q
  | .str s =>
    let t := trimChars s.toList
    if t.isEmpty then some 0
    else match parseDec t with
      | some (q, []) => some q
      | _ => none
  | .undef => none

/-- JS truthiness of a value. -/
def truthy : Value → Bool
  | .num q => q ≠ 0
  | .str s => s ≠ ""
  | .undef => false

/-- Proleptic-Gregorian leap year. -/
def isLeap (y : ℤ) : Bool := (y % 4 == 0 && y % 100 != 0) || y % 400 == 0

/-- Days in a month. -/
def daysInMonth (y : ℤ) (m : ℕ) : ℕ :=
  if m = 2 then (if isLeap y then 29 else 28)
  else if m = 4 ∨ m = 6 ∨ m = 9 ∨ m = 11 then 30 else 31

/-- Days from the Unix epoch to the civil date `y-m-d` (standard
era-decomposition algorithm; all intermediate divisions are on nonnegative
operands, where `Int./` agrees with mathematical division). -/
def daysFromCivil (y : ℤ) (m d : ℕ) : ℤ :=
  let y' : ℤ := if m ≤ 2 then y - 1 else y
  let era : ℤ := (if 0 ≤ y' then y' else y' - 399) / 400
  let yoe : ℤ := y' - era * 400
  let mp : ℤ := ((m : ℤ) + 9) % 12
  let doy : ℤ := (153 * mp + 2) / 5 + (d : ℤ) - 1
  let doe : ℤ := yoe * 365 + yoe / 4 - yoe / 100 + doy
  era * 146097 + doe - 719468

/-- Parse an ISO `YYYY-MM-DD` string into a millisecond timestamp (UTC
midnight).  This models the ECMAScript date-time-string format path of
`Date.parse`; other engine-specific fallback formats are not modelled — no
claim and no concrete input used below involves them. -/
def parseIsoDate (s : String) : Option ℤ :=
  match s.toList with
  | [y1, y2, y3, y4, '-', m1, m2, '-', d1, d2] =>
    if (y1.isDigit ∧ y2.isDigit ∧ y3.isDigit ∧ y4.isDigit) ∧
       (m1.isDigit ∧ m2.isDigit) ∧ (d1.isDigit ∧ d2.isDigit) then
      let y : ℤ := digitsVal [y1, y2, y3, y4]
      let m : ℕ := digitsVal [m1, m2]
      let d : ℕ := digitsVal [d1, d2]
      if 1 ≤ m ∧ m ≤ 12 ∧ 1 ≤ d ∧ d ≤ daysInMonth y m then
        some (86400000 * daysFromCivil y m d)
      else none
    else none
  | _ => none

/-- Truncation toward zero (`ToIntegerOrInfinity` on a finite number). -/
def ratTrunc (q : ℚ) : ℤ := q.num / q.den

/-- `new Date(v).getTime()`: `none` models an invalid date (`NaN`).  A
number is clipped to the ECMAScript time range `|t| ≤ 8.64e15` and
truncated; a string goes through the date parser. -/
def jsDateGetTime : Value → Option ℤ
  | .num q => if |q| ≤ 8640000000000000 then some (ratTrunc q) else none
  | .str s => parseIsoDate s
  | .undef => none

/-! ### Column classification (`getNumericColumns`, `getDateColumn`,
`isDateValue`) -/

/-- `isDateValue` (line 401): falsy values are rejected, otherwise the
value must yield a valid `Date`. -/
def isDateValue (v : Value) : Bool := truthy v && (jsDateGetTime v).isSome

/-- `getNumericColumns` (line 374): keys of the first record whose value
satisfies `!isNaN(parseFloat(value)) && isFinite(value)`. -/
def getNumericColumns : Dataset → List String
  | [] => []
  | firstRow :: _ =>
    (recKeys firstRow).filter fun key =>
      let value := getVal firstRow key
      (jsParseFloat value).isSome && (jsToNumber value).isSome

/-- `getDateColumn` (line 386): the first key of the first record whose
value is date-like, if any. -/
def getDateColumn : Dataset → Option String
  | [] => none
  | firstRow :: _ =>
    (recKeys firstRow).find? fun key => isDateValue (getVal firstRow key)

/-! ### NaN-aware helpers (JS comparisons/`Math` on possibly-NaN numbers) -/

/-- `a > c` where `a` may be `NaN`: `NaN > c` is `false`. -/
def jqGtQ (a : Option ℚ) (c : ℚ) : Bool :=
  match a with
  | some q => decide (c < q)
  | none => false

/-- `Math.abs` (NaN-propagating). -/
def jqAbs (a : Option ℚ) : Option ℚ := a.map (|·|)

/-- `Math.min(a, c)` (NaN-propagating in the first argument). -/
def jqMinQ (a : Option ℚ) (c : ℚ) : Option ℚ := a.map fun q => min q c

/-- `reduce((a, b) => a + b, 0)`: a left fold, which for rational addition
equals `List.sum`. -/
def listSum (l : List ℚ) : ℚ := l.sum

/-! ### Stable sorting (`Array.prototype.sort`) -/

/-- Insert `x` after every element `y` with `le y x` ("`y` may stay before
`x`") of an already-sorted list. -/
def insertSorted (le : α → α → Bool) (x : α) : List α → List α
  | [] => [x]
  | y :: ys => if le y x then y :: insertSorted le x ys else x :: y :: ys

/-- The stable sort w.r.t. the comparator-induced relation `le`
(`le a b` = "comparator(a,b) ≤ 0").  ECMAScript requires
`Array.prototype.sort` to be stable and sorted, which determines the
result uniquely for a total preorder, so this insertion sort returns
exactly the engine's list. -/
def jsStableSort (le : α → α → Bool) (l : List α) : List α :=
  l.foldl (fun acc x => insertSorted le x acc) []

/-! ### `SimpleLinearRegression` (lines 6–46) -/

/-- The fitted state of `SimpleLinearRegression`; `none` models a `NaN`
slope/intercept. -/
structure SimpleLinearRegression where
  slope : Option ℚ
  intercept : Option ℚ
deriving DecidableEq, Repr

/-- `fit(x, y)` (line 14): closed-form least squares.  A zero denominator
`n·Σx² − (Σx)²` (degenerate `x`) forces a zero numerator as well, so JS
computes `0/0 = NaN` for the slope and then a NaN intercept; both are
modelled by `none`.  (`x.reduce((t, xi, i) => t + xi*y[i])` pairs the two
arrays positionally; all call sites pass equal-length arrays, matching
`List.zip`.) -/
def SimpleLinearRegression.fit (x y : List ℚ) : SimpleLinearRegression :=
  let n : ℚ := x.length
  let sumX := listSum x
  let sumY := listSum y
  let sumXY := listSum ((x.zip y).map fun p => p.1 * p.2)
  let sumXX := listSum (x.map fun xi => xi * xi)
  if n * sumXX - sumX * sumX = 0 then { slope := none, intercept := none }
  else
    let slope := (n * sumXY - sumX * sumY) / (n * sumXX - sumX * sumX)
    { slope := some slope, intercept := some ((sumY - slope * sumX) / n) }

/-- `predict(x)` (line 25). -/
def SimpleLinearRegression.predict (r : SimpleLinearRegression) (t : ℚ) : Option ℚ :=
  match r.slope, r.intercept with
  | some b, some a => some (b * t + a)
  | _, _ => none

/-- `score(x, y)` (line 29): `R² = 1 − SS_res/SS_tot`, `none` modelling the
NaN produced when the fit itself is NaN or when `SS_tot = 0` (in the latter
case all `y` are equal, hence — at the call sites, where `score` receives
the same arrays the regression was fitted on — `SS_res = 0` as well and JS
computes `1 − 0/0 = NaN`; see `ssTot_eq_zero_slope` below). -/
def SimpleLinearRegression.score (r : SimpleLinearRegression) (x y : List ℚ) : Option ℚ :=
  match r.slope, r.intercept with
  | some b, some a =>
    let yPred := x.map fun xi => b * xi + a
    let yMean := listSum y / y.length
    let ssRes := listSum ((y.zip yPred).map fun p => (p.1 - p.2) ^ 2)
    let ssTot := listSum (y.map fun yi => (yi - yMean) ^ 2)
    if ssTot = 0 then none else some (1 - ssRes / ssTot)
  | _, _ => none

/-! ### Exact `c·√d` numbers -/

/-- An exact representation of the real number `c * √d` for rationals `c`,
`d` (every number stored or compared by the engine downstream of a
`Math.sqrt` has this form; plain rationals embed as `⟨q, 1⟩`). -/
structure RQ where
  c : ℚ
  d : ℚ
deriving DecidableEq, Repr

/-- The real value represented. -/
noncomputable def RQ.val (x : RQ) : ℝ := (x.c : ℝ) * Real.sqrt (x.d : ℝ)

/-- Embed a rational. -/
def RQ.ofQ (q : ℚ) : RQ := ⟨q, 1⟩

/-- `Math.abs`. -/
def RQ.abs (x : RQ) : RQ := ⟨|x.c|, x.d⟩

/-- Multiplication by a rational scalar. -/
def RQ.scale (k : ℚ) (x : RQ) : RQ := ⟨k * x.c, x.d⟩

/-- Sign of the represented value (`√d = 0` when `d ≤ 0`). -/
def RQ.sgn (x : RQ) : ℤ :=
  if x.d ≤ 0 then 0 else if x.c < 0 then -1 else if x.c = 0 then 0 else 1

/-- Decidable `≤` on represented values: compare signs, then squares. -/
def RQ.leb (x y : RQ) : Bool :=
  if x.sgn < y.sgn then true
  else if y.sgn < x.sgn then false
  else if x.sgn = 1 then decide (x.c ^ 2 * x.d ≤ y.c ^ 2 * y.d)
  else if x.sgn = -1 then decide (y.c ^ 2 * y.d ≤ x.c ^ 2 * x.d)
  else true

/-- Decidable `<` on represented values. -/
def RQ.ltB (x y : RQ) : Bool := ! RQ.leb y x

/-- Decidable equality of represented values. -/
def RQ.eqb (x y : RQ) : Bool := RQ.leb x y && RQ.leb y x


/-! ### Insight data model (`AnalysisInsight`, lines 48–54) -/

/-- A time-series point; the `Date` object is represented by its
millisecond timestamp. -/
structure TSPoint where
  date : ℤ
  value : ℚ
deriving DecidableEq, Repr

inductive InsightType where
  | trend | correlation | anomaly | prediction | segment
deriving DecidableEq, Repr

/-- One cluster summary produced by `performSegmentation` (line 244).  In
the source, `cluster` is a cluster index (a number), so `cluster.length`
is `undefined` (modelled `none`), and `result.centroids[index]` is
`undefined` (`none`) once `index` reaches the cluster count. -/
structure Segment where
  id : ℕ
  size : Option ℕ
  centroid : Option (ℚ × ℚ)
  points : ℕ
deriving DecidableEq, Repr

/-- The analyzer-specific `data` payload of an insight.  `Option` fields
model possibly-NaN numbers carried over from the computation. -/
inductive InsightData where
  | trendD (column : String) (slope : Option ℚ) (rSquared : Option ℚ)
      (timeSeriesData : List TSPoint)
  | corrD (column1 column2 : String) (correlation : Option RQ)
      (strength direction : String)
  | anomalyD (column : String) (anomalies : List (Value × Record))
      (mean : ℚ) (threshold : RQ)
  | segmentD (columns : List String) (segments : List Segment) (k : ℕ)
  | predD (column : String) (prediction : Option ℚ) (rSquared : Option ℚ)
      (slope : Option ℚ) (intercept : Option ℚ)
deriving DecidableEq

/-- An `AnalysisInsight`.  The `description` string of the source embeds
`toFixed` float formatting and is not part of the model; `confidence` is
`none` when the stored number would be `NaN` (proved unreachable for every
emitted insight, see `confidence_isSome` lemmas). -/
structure Insight where
  type : InsightType
  title : String
  confidence : Option RQ
  data : InsightData
deriving DecidableEq

/-- Real value of an insight's confidence (`0` for the unreachable NaN). -/
noncomputable def confVal (i : Insight) : ℝ :=
  match i.confidence with
  | some r => r.val
  | none => 0

/-! ### Shared data preparation -/

/-- `prepareTimeSeriesData` (line 410): pair the date and value columns,
drop rows where either fails to parse, sort ascending by time.
`Array.prototype.sort` with comparator `a.date - b.date` is the stable
ascending sort by timestamp (the map-then-filter of the source is fused
into a `filterMap`). -/
def prepareTimeSeriesData (data : Dataset) (dateColumn valueColumn : String) :
    List TSPoint :=
  jsStableSort (fun p q => decide (p.date ≤ q.date))
    (data.filterMap fun row =>
      match jsDateGetTime (getVal row dateColumn), jsParseFloat (getVal row valueColumn) with
      | some d, some v => some ⟨d, v⟩
      | _, _ => none)

/-- The per-column parsed values
`data.map(row => parseFloat(row[column])).filter(v => !isNaN(v))` used by
the correlation and anomaly analyzers. -/
def parsedValues (data : Dataset) (column : String) : List ℚ :=
  (data.map fun row => jsParseFloat (getVal row column)).filterMap id

/-- The regressor list `arr.map((_, index) => index) = [0, 1, …, n−1]`
built by both regression call sites. -/
def rangeQ (n : ℕ) : List ℚ := (List.range n).map (Nat.cast : ℕ → ℚ)

/-- The regression denominator `n·Σx² − (Σx)²` of `fit`. -/
def regDenom (x : List ℚ) : ℚ :=
  (x.length : ℚ) * listSum (x.map fun t => t * t) - listSum x * listSum x

/-- The closed-form least-squares slope
`(n·Σxy − Σx·Σy) / (n·Σx² − (Σx)²)` computed by `fit` and stated verbatim
by the specification (§4.2). -/
def slopeFormula (x y : List ℚ) : ℚ :=
  ((x.length : ℚ) * listSum ((x.zip y).map fun p => p.1 * p.2) -
      listSum x * listSum y) / regDenom x

/-- The closed-form intercept `(Σy − slope·Σx)/n` computed by `fit`. -/
def interceptFormula (x y : List ℚ) : ℚ :=
  (listSum y - slopeFormula x y * listSum x) / (x.length : ℚ)

/-- The residual sum of squares of the fitted line (the `ssRes` of
`score`). -/
def ssRes (x y : List ℚ) : ℚ :=
  listSum ((y.zip (x.map fun xi => slopeFormula x y * xi + interceptFormula x y)).map
    fun p => (p.1 - p.2) ^ 2)

/-- The total sum of squares about the mean (the `ssTot` of `score`). -/
def ssTot (y : List ℚ) : ℚ :=
  listSum (y.map fun t => (t - listSum y / y.length) ^ 2)

/-! ### `simple-statistics` functions used by the engine.
The library throws on empty/too-short inputs; every call site below is
guarded by an explicit length check before the call, so those error paths
are unreachable and the functions are modelled as total (with the
irrelevant out-of-domain values produced by `ℚ` division by zero). -/

/-- `ss.mean`. -/
def ssMean (x : List ℚ) : ℚ := listSum x / x.length

/-- `ss.variance` (population variance; `ss.standardDeviation` is its
square root). -/
def popVariance (x : List ℚ) : ℚ :=
  listSum (x.map fun t => (t - ssMean x) ^ 2) / x.length

/-- `ss.sampleCovariance`: `Σ(xᵢ−x̄)(yᵢ−ȳ)/(n−1)`. -/
def sampleCovariance (x y : List ℚ) : ℚ :=
  listSum ((x.zip y).map fun p => (p.1 - ssMean x) * (p.2 - ssMean y)) /
    ((x.length : ℚ) - 1)

/-- `ss.sampleVariance`: `Σ(xᵢ−x̄)²/(n−1)`. -/
def sampleVariance (x : List ℚ) : ℚ :=
  listSum (x.map fun t => (t - ssMean x) ^ 2) / ((x.length : ℚ) - 1)

/-- `ss.sampleCorrelation`:
`sampleCovariance(x,y) / (sampleStdDev(x) * sampleStdDev(y))`.  Writing
`D = sampleVariance(x)·sampleVariance(y)`, the denominator is `√D` and the
quotient is the `RQ` number `(cov/D)·√D`.  When `D = 0` one of the columns
is constant, hence `cov = 0` as well (`covariance_eq_zero_of_var_left`
below) and JS computes `0/0 = NaN`, modelled by `none`. -/
def sampleCorrelation (x y : List ℚ) : Option RQ :=
  let cov := sampleCovariance x y
  let D := sampleVariance x * sampleVariance y
  if D = 0 then none else some ⟨cov / D, D⟩

/-- `Math.abs(r) > q` for a possibly-NaN `RQ` number (`NaN > q` is
`false`). -/
def rqAbsGtQ (r : Option RQ) (q : ℚ) : Bool :=
  match r with
  | some z => RQ.ltB (RQ.ofQ q) z.abs
  | none => false

/-- `r > 0` for a possibly-NaN `RQ` number. -/
def rqGtZero (r : Option RQ) : Bool :=
  match r with
  | some z => RQ.ltB (RQ.ofQ 0) z
  | none => false

/-! ### Trend analyzer (`identifyTrends`, lines 86–123) -/

/-- The record returned by `calculateTrend` (line 420). -/
structure Trend where
  slope : Option ℚ
  rSquared : Option ℚ
  direction : String
deriving DecidableEq, Repr

/-- `calculateTrend` (line 420): regression of the values against the
sequence indices `0,1,2,…`; direction is `"Upward"` iff `slope > 0`
(`NaN > 0` being false). -/
def calculateTrend (timeSeriesData : List TSPoint) : Trend :=
  let x := rangeQ timeSeriesData.length
  let y := timeSeriesData.map (·.value)
  let regression := SimpleLinearRegression.fit x y
  let rSquared := regression.score x y
  { slope := regression.slope
    rSquared := rSquared
    direction := if jqGtQ regression.slope 0 then "Upward" else "Downward" }

/-- The body of the per-column loop of `identifyTrends` (lines 96–116);
the per-column `try/catch` of the source has no reachable throwing
operation in its body (arithmetic on NaN does not throw in JS). -/
def trendInsightsForColumn (data : Dataset) (dateColumn column : String) :
    List Insight :=
  let timeSeriesData := prepareTimeSeriesData data dateColumn column
  if timeSeriesData.length < 3 then []
  else
    let trend := calculateTrend timeSeriesData
    if jqGtQ (jqAbs trend.slope) (1 / 100) then
      [{ type := .trend
         title := trend.direction ++ " Trend in " ++ column
         confidence := (jqMinQ (trend.rSquared.map (· * 100)) 95).map RQ.ofQ
         data := .trendD column trend.slope trend.rSquared timeSeriesData }]
    else []

/-- `identifyTrends` (line 86). -/
def identifyTrends (data : Dataset) : List Insight :=
  let numericColumns := getNumericColumns data
  match getDateColumn data with
  | none => []
  | some dateColumn =>
    if numericColumns.isEmpty then []
    else numericColumns.flatMap (trendInsightsForColumn data dateColumn)

/-! ### Correlation analyzer (`findCorrelations`, lines 125–173) -/

/-- `s.charAt(0).toUpperCase() + s.slice(1)`. -/
def capFirst (s : String) : String :=
  match s.toList with
  | [] => ""
  | ch :: cs => String.mk (ch.toUpper :: cs)

/-- The body of the per-pair loop of `findCorrelations` (lines 135–165). -/
def corrInsightsForPair (data : Dataset) (col1 col2 : String) : List Insight :=
  let values1 := parsedValues data col1
  let values2 := parsedValues data col2
  if values1.length ≠ values2.length ∨ values1.length < 3 then []
  else
    let correlation := sampleCorrelation values1 values2
    if rqAbsGtQ correlation (1 / 2) then
      let strength := if rqAbsGtQ correlation (4 / 5) then "strong" else "moderate"
      let direction := if rqGtZero correlation then "positive" else "negative"
      [{ type := .correlation
         title := capFirst strength ++ " " ++ direction ++ " correlation"
         confidence := correlation.map fun z => RQ.scale 100 z.abs
         data := .corrD col1 col2 correlation strength direction }]
    else []

/-- The ordered pairs `(cols[i], cols[j])`, `i < j`, visited by the nested
loops of `findCorrelations`. -/
def pairsAfter : List String → List (String × String)
  | [] => []
  | c :: cs => (cs.map fun c2 => (c, c2)) ++ pairsAfter cs

/-- `findCorrelations` (line 125). -/
def findCorrelations (data : Dataset) : List Insight :=
  let numericColumns := getNumericColumns data
  if numericColumns.length < 2 then []
  else (pairsAfter numericColumns).flatMap fun p => corrInsightsForPair data p.1 p.2

/-! ### Anomaly analyzer (`detectAnomalies`, lines 175–215) -/

/-- The rows flagged by the anomaly filter (line 190):
`!isNaN(value) && Math.abs(value - mean) > threshold`, where
`threshold = 2 * ss.standardDeviation(values) = 2·√(popVariance values)`. -/
def anomalousRows (data : Dataset) (column : String) (mean variance : ℚ) :
    List Record :=
  data.filter fun row =>
    match jsParseFloat (getVal row column) with
    | some value => RQ.ltB (⟨2, variance⟩ : RQ) (RQ.ofQ |value - mean|)
    | none => false

/-- The body of the per-column loop of `detectAnomalies` (lines 180–208). -/
def anomalyInsightsForColumn (data : Dataset) (column : String) : List Insight :=
  let values := parsedValues data column
  if values.length < 10 then []
  else
    let mean := ssMean values
    let variance := popVariance values
    let anomalies := anomalousRows data column mean variance
    if anomalies.length > 0 then
      [{ type := .anomaly
         title := toString anomalies.length ++
           (if anomalies.length = 1 then " Anomaly in " else " Anomalies in ") ++ column
         confidence := some (RQ.ofQ
           (min (((anomalies.length : ℚ) / (values.length : ℚ)) * 500) 90))
         data := .anomalyD column (anomalies.map fun row => (getVal row column, row))
           mean ⟨2, variance⟩ }]
    else []

/-- `detectAnomalies` (line 175). -/
def detectAnomalies (data : Dataset) : List Insight :=
  (getNumericColumns data).flatMap (anomalyInsightsForColumn data)

/-! ### Segmentation analyzer (`performSegmentation`, lines 217–267) -/

/-- Result shape of the external `ml-kmeans` call: a cluster index per
point and `k` centroids. -/
structure KMeansResult where
  clusters : List ℕ
  centroids : List (ℚ × ℚ)

/-- The external clustering routine (random initialisation, hence
non-deterministic; the claims hold for every possible result). -/
abbrev KMeansFn := List (ℚ × ℚ) → ℕ → KMeansResult

/-- `parseFloat(row[col]) || 0`: a falsy parse (NaN, or 0 itself) is
coerced to `0`. -/
def coerceNum (o : Option ℚ) : ℚ :=
  match o with
  | some q => q
  | none => 0

/-- The 2-D feature points (line 230).  After the `|| 0` coercion no
coordinate is ever `NaN`, so the subsequent
`.filter(point => !point.includes(NaN))` of the source keeps every point
and is omitted from the model. -/
def segPoints (data : Dataset) (col1 col2 : String) : List (ℚ × ℚ) :=
  data.map fun row =>
    (coerceNum (jsParseFloat (getVal row col1)),
     coerceNum (jsParseFloat (getVal row col2)))

/-- `performSegmentation` (line 217).  The guards (`≥ 2` numeric columns,
`≥ 10` records, `≥ 6` points, `2 ≤ k ≤ points`) keep the `ml-kmeans` call
inside its documented domain, so the surrounding `try/catch` has no
reachable throwing operation. -/
def performSegmentation (km : KMeansFn) (data : Dataset) : List Insight :=
  let numericColumns := getNumericColumns data
  if numericColumns.length < 2 ∨ data.length < 10 then []
  else
    match numericColumns with
    | col1 :: col2 :: _ =>
      let points := segPoints data col1 col2
      if points.length < 6 then []
      else
        let k := min 3 (points.length / 3)
        let result := km points k
        let segments := result.clusters.enum.map fun p =>
          { id := p.1 + 1
            size := none
            centroid := result.centroids.get? p.1
            points := p.2 : Segment }
        [{ type := .segment
           title := "Data Segmented into " ++ toString k ++ " Groups"
           confidence := some (RQ.ofQ 75)
           data := .segmentD [col1, col2] segments k }]
    | _ => []

/-! ### Prediction analyzer (`generatePredictions`, lines 269–313) -/

/-- The body of the per-column loop of `generatePredictions`
(lines 279–305). -/
def predictionInsightsForColumn (data : Dataset) (dateColumn column : String) :
    List Insight :=
  let timeSeriesData := prepareTimeSeriesData data dateColumn column
  if timeSeriesData.length < 5 then []
  else
    let x := rangeQ timeSeriesData.length
    let y := timeSeriesData.map (·.value)
    let regression := SimpleLinearRegression.fit x y
    let nextPeriodPrediction := regression.predict timeSeriesData.length
    let rSquared := regression.score x y
    if jqGtQ rSquared (3 / 10) then
      [{ type := .prediction
         title := "Predicted Next Value for " ++ column
         confidence := (jqMinQ (rSquared.map (· * 100)) 85).map RQ.ofQ
         data := .predD column nextPeriodPrediction rSquared
           regression.slope regression.intercept }]
    else []

/-- `generatePredictions` (line 269). -/
def generatePredictions (data : Dataset) : List Insight :=
  let numericColumns := getNumericColumns data
  match getDateColumn data with
  | none => []
  | some dateColumn =>
    if numericColumns.isEmpty ∨ data.length < 5 then []
    else numericColumns.flatMap (predictionInsightsForColumn data dateColumn)

/-! ### The entry point (`generateInsights`, lines 65–84) -/

/-- The ordering induced by the sort comparator
`(a, b) => b.confidence - a.confidence` (descending confidence): `a` may
stay before `b` iff `b.confidence ≤ a.confidence`.  A NaN confidence
(whose comparator result would leave the order unspecified) is proved
unreachable (`confidence_isSome`); the `none` branches order it like
`-∞`, which makes the relation total and transitive. -/
def insightLe (a b : Insight) : Bool :=
  match b.confidence, a.confidence with
  | some yb, some xa => RQ.leb yb xa
  | some _, none => false
  | none, _ => true

/-- `generateInsights` (line 65): run the five analyzers in the fixed
order trend, correlation, anomaly, segment, prediction; concatenate; sort
stably by descending confidence.  No reachable operation in the `try`
block throws for a well-formed dataset (each analyzer catches per-column
faults internally and JS arithmetic yields NaN instead of throwing), so
the surrounding `catch` is not taken and the function is total. -/
def generateInsights (km : KMeansFn) (data : Dataset) : List Insight :=
  if data.isEmpty then []
  else
    jsStableSort insightLe
      (identifyTrends data ++ findCorrelations data ++ detectAnomalies data ++
        performSegmentation km data ++ generatePredictions data)


/-! ### Auxiliary definitions used by the claim statements and witnesses -/

/-- The Bool-valued membership test for the class of insights whose
confidence has a given real value (used to state sort stability). -/
def confClass (x : RQ) (i : Insight) : Bool :=
  match i.confidence with
  | some r => RQ.eqb r x
  | none => false

/-- The rows of a dataset on which both columns parse as numbers, paired
row-by-row. -/
def bothParsedPairs (data : Dataset) (c1 c2 : String) : List (ℚ × ℚ) :=
  data.filterMap fun row =>
    match jsParseFloat (getVal row c1), jsParseFloat (getVal row c2) with
    | some a, some b => some (a, b)
    | _, _ => none

/-- A second, spec-side definition, following the claim/spec wording of
§4.3 — "compute Pearson sample correlation over rows where **both** values
parse as numbers" — for comparison against the implementation, which
filters each column independently and pairs the filtered lists
positionally. -/
def specBothRowsCorrelation (data : Dataset) (c1 c2 : String) : Option RQ :=
  sampleCorrelation ((bothParsedPairs data c1 c2).map Prod.fst)
    ((bothParsedPairs data c1 c2).map Prod.snd)

/-- A fixed (arbitrary) clustering function for the witnesses. -/
def kmW : KMeansFn := fun _ _ => ⟨[], []⟩

/-- A one-column record. -/
def rowD (q : ℚ) : Record := [("d", Value.num q)]

/-- Witness dataset: three increasing values of a single numeric column
(which doubles as the date column). -/
def dataTrend : Dataset := [rowD 1, rowD 2, rowD 3]

/-- Witness dataset: five increasing values. -/
def dataPred : Dataset := [rowD 1, rowD 2, rowD 3, rowD 4, rowD 5]

/-- Witness dataset: ten identical two-column records (produces exactly one
insight: the segmentation one). -/
def dataConst10 : Dataset :=
  List.replicate 10 [("a", Value.num 5), ("b", Value.num 5)]

/-- Witness dataset: five identical values (degenerate variance). -/
def dataConst5 : Dataset := List.replicate 5 [("c", Value.num 7)]

/-- Witness dataset: two identical numeric columns over three rows. -/
def dataCorr : Dataset :=
  [[("a", Value.num 1), ("b", Value.num 1)],
   [("a", Value.num 2), ("b", Value.num 2)],
   [("a", Value.num 3), ("b", Value.num 3)]]

/-- Counterexample dataset for the correlation pairing: columns `a` and
`b` each have one unparseable hole, at different rows, so the two filtered
lists are equal-length but pair values from different rows. -/
def dataMisaligned : Dataset :=
  [[("a", Value.num 1), ("b", Value.num 1)],
   [("a", Value.num 2), ("b", Value.str "x")],
   [("a", Value.num 3), ("b", Value.num 3)],
   [("a", Value.num 4), ("b", Value.num 4)],
   [("a", Value.str "x"), ("b", Value.num 2)]]

/-- Witness dataset: nine equal values and one outlier. -/
def dataAnom : Dataset :=
  (List.replicate 9 [("v", Value.num 1)]) ++ [[("v", Value.num 100)]]

/-- Counterexample dataset: a truthy finite number beyond the ECMAScript
`Date` range `8.64e15`. -/
def dataBigNum : Dataset := [[("t", Value.num 8640000000000001)]]

/-- The single insight produced on `dataConst10` with `kmW`. -/
def segInsightW : Insight :=
  { type := .segment
    title := "Data Segmented into 3 Groups"
    confidence := some (RQ.ofQ 75)
    data := .segmentD ["a", "b"] [] 3 }

/-! ## Semantic lemmas for `RQ` comparisons -/

lemma RQ.sqrt_cast_pos {d : ℚ} (h : ¬ d ≤ 0) : 0 < Real.sqrt (d : ℝ) := by
  have : (0 : ℝ) < (d : ℝ) := by exact_mod_cast lt_of_not_ge h
  exact Real.sqrt_pos.mpr this

lemma RQ.sqrt_cast_zero {d : ℚ} (h : d ≤ 0) : Real.sqrt (d : ℝ) = 0 := by
  apply Real.sqrt_eq_zero'.mpr
  exact_mod_cast h

/-- `sgn` computes the sign of `val`. -/
lemma RQ.sgn_spec (x : RQ) :
    (x.sgn = 0 ↔ x.val = 0) ∧ (x.sgn = 1 ↔ 0 < x.val) ∧ (x.sgn = -1 ↔ x.val < 0) := by
  unfold RQ.sgn RQ.val
  by_cases hd : x.d ≤ 0
  · simp [hd, RQ.sqrt_cast_zero hd]
  · have hs := RQ.sqrt_cast_pos hd
    by_cases hc : x.c < 0
    · have : (x.c : ℝ) * Real.sqrt (x.d : ℝ) < 0 := by
        apply mul_neg_of_neg_of_pos _ hs
        exact_mod_cast hc
      simp only [hd, if_false, hc, if_true]
      constructor
      · constructor <;> intro h <;> [exact absurd h (by norm_num); linarith]
      constructor
      · constructor <;> intro h <;> [exact absurd h (by norm_num); linarith]
      · simp [this]
    · by_cases hc0 : x.c = 0
      · simp [hd, hc, hc0]
      · have hcpos : (0 : ℚ) < x.c := lt_of_le_of_ne (le_of_not_gt hc) (Ne.symm hc0)
        have : (0 : ℝ) < (x.c : ℝ) * Real.sqrt (x.d : ℝ) := by
          apply mul_pos _ hs
          exact_mod_cast hcpos
        simp only [hd, if_false, hc, hc0]
        constructor
        · constructor <;> intro h <;> [exact absurd h (by norm_num); linarith]
        constructor
        · simp [this]
        · constructor <;> intro h <;> [exact absurd h (by norm_num); linarith]

/-- The square of the represented value is `c²·d` (for `d ≥ 0`). -/
lemma RQ.val_sq (x : RQ) (h : ¬ x.d ≤ 0) : x.val ^ 2 = (x.c ^ 2 * x.d : ℚ) := by
  have hd : (0 : ℝ) ≤ (x.d : ℝ) := by
    have := le_of_lt (lt_of_not_ge h)
    exact_mod_cast this
  unfold RQ.val
  rw [mul_pow, Real.sq_sqrt hd]
  push_cast
  ring

lemma RQ.sgn_cases (x : RQ) : x.sgn = -1 ∨ x.sgn = 0 ∨ x.sgn = 1 := by
  unfold RQ.sgn
  split_ifs <;> simp

lemma RQ.d_pos_of_sgn_ne_zero {x : RQ} (h : x.sgn ≠ 0) : ¬ x.d ≤ 0 := by
  intro hd
  apply h
  unfold RQ.sgn
  simp [hd]

lemma RQ.val_lt_of_sgn_lt {x y : RQ} (h : x.sgn < y.sgn) : x.val < y.val := by
  obtain hsx := RQ.sgn_spec x
  obtain hsy := RQ.sgn_spec y
  rcases RQ.sgn_cases x with hx | hx | hx <;> rcases RQ.sgn_cases y with hy | hy | hy <;>
    rw [hx, hy] at h <;> first
  | omega
  | exact lt_of_lt_of_le (hsx.2.2.mp hx) (le_of_eq (hsy.1.mp hy).symm)
  | exact lt_trans (hsx.2.2.mp hx) (hsy.2.1.mp hy)
  | exact lt_of_le_of_lt (le_of_eq (hsx.1.mp hx)) (hsy.2.1.mp hy)

/-- `RQ.leb` decides `≤` on the represented real values. -/
lemma RQ.leb_iff (x y : RQ) : RQ.leb x y = true ↔ x.val ≤ y.val := by
  unfold RQ.leb
  split_ifs with h1 h2 h3 h4
  · simp [le_of_lt (RQ.val_lt_of_sgn_lt h1)]
  · simp [not_le.mpr (RQ.val_lt_of_sgn_lt h2)]
  · -- both signs `1`: compare squares
    have hxy : x.sgn = y.sgn := by omega
    have hy3 : y.sgn = 1 := by omega
    have hdx := RQ.d_pos_of_sgn_ne_zero (x := x) (by omega)
    have hdy := RQ.d_pos_of_sgn_ne_zero (x := y) (by omega)
    have hxpos : 0 < x.val := (RQ.sgn_spec x).2.1.mp h3
    have hypos : 0 < y.val := (RQ.sgn_spec y).2.1.mp hy3
    rw [decide_eq_true_eq]
    rw [show (x.c ^ 2 * x.d ≤ y.c ^ 2 * y.d) ↔
        ((x.c ^ 2 * x.d : ℚ) : ℝ) ≤ ((y.c ^ 2 * y.d : ℚ) : ℝ) from (Rat.cast_le).symm]
    rw [← RQ.val_sq x hdx, ← RQ.val_sq y hdy]
    exact pow_le_pow_iff_left₀ (le_of_lt hxpos) (le_of_lt hypos) (by norm_num)
  · -- both signs `-1`: compare squares, reversed
    have hy4 : y.sgn = -1 := by omega
    have hdx := RQ.d_pos_of_sgn_ne_zero (x := x) (by omega)
    have hdy := RQ.d_pos_of_sgn_ne_zero (x := y) (by omega)
    have hxneg : x.val < 0 := (RQ.sgn_spec x).2.2.mp h4
    have hyneg : y.val < 0 := (RQ.sgn_spec y).2.2.mp hy4
    rw [decide_eq_true_eq]
    rw [show (y.c ^ 2 * y.d ≤ x.c ^ 2 * x.d) ↔
        ((y.c ^ 2 * y.d : ℚ) : ℝ) ≤ ((x.c ^ 2 * x.d : ℚ) : ℝ) from (Rat.cast_le).symm]
    rw [← RQ.val_sq x hdx, ← RQ.val_sq y hdy]
    have hx2 : x.val ^ 2 = (-x.val) ^ 2 := by ring
    have hy2 : y.val ^ 2 = (-y.val) ^ 2 := by ring
    rw [hx2, hy2,
      pow_le_pow_iff_left₀ (by linarith) (by linarith) (two_ne_zero)]
    constructor <;> intro h <;> linarith
  · -- both signs `0`: both values are zero
    have hx0 : x.sgn = 0 := by rcases RQ.sgn_cases x with h | h | h <;> omega
    have hy0 : y.sgn = 0 := by omega
    simp [(RQ.sgn_spec x).1.mp hx0, (RQ.sgn_spec y).1.mp hy0]

/-- `RQ.ltB` decides `<` on the represented real values. -/
lemma RQ.ltB_iff (x y : RQ) : RQ.ltB x y = true ↔ x.val < y.val := by
  unfold RQ.ltB
  rw [Bool.not_eq_true', ← not_le]
  constructor
  · intro h
    exact fun hc => absurd ((RQ.leb_iff y x).mpr hc) (by simp [h])
  · intro h
    cases hb : RQ.leb y x
    · rfl
    · exact absurd ((RQ.leb_iff y x).mp hb) h

/-- `RQ.eqb` decides equality of the represented real values. -/
lemma RQ.eqb_iff (x y : RQ) : RQ.eqb x y = true ↔ x.val = y.val := by
  unfold RQ.eqb
  rw [Bool.and_eq_true, RQ.leb_iff, RQ.leb_iff]
  constructor
  · exact fun h => le_antisymm h.1 h.2
  · exact fun h => ⟨le_of_eq h, ge_of_eq h⟩

@[simp] lemma RQ.ofQ_val (q : ℚ) : (RQ.ofQ q).val = (q : ℝ) := by
  unfold RQ.ofQ RQ.val
  norm_num

@[simp] lemma RQ.abs_val (x : RQ) : x.abs.val = |x.val| := by
  unfold RQ.abs RQ.val
  rw [abs_mul, abs_of_nonneg (Real.sqrt_nonneg _)]
  push_cast
  ring_nf

@[simp] lemma RQ.scale_val (k : ℚ) (x : RQ) : (RQ.scale k x).val = (k : ℝ) * x.val := by
  unfold RQ.scale RQ.val
  push_cast
  ring

lemma RQ.abs_val_le_one {c d : ℚ} (hd : 0 < d) (h : c ^ 2 * d ≤ 1) :
    |(RQ.mk c d).val| ≤ 1 := by
  rw [← sq_le_one_iff_abs_le_one]
  rw [RQ.val_sq _ (by simp only []; linarith)]
  calc ((c ^ 2 * d : ℚ) : ℝ) ≤ ((1 : ℚ) : ℝ) := by exact_mod_cast h
    _ = 1 := by norm_num

/-! ## Lemmas about the stable sort -/

section SortLemmas

variable {α : Type _} (le : α → α → Bool)

lemma insertSorted_perm (x : α) (l : List α) :
    List.Perm (insertSorted le x l) (x :: l) := by
  induction l with
  | nil => exact List.Perm.refl _
  | cons y ys ih =>
    unfold insertSorted
    by_cases h : le y x
    · simp only [h, if_true]
      exact (List.Perm.cons y ih).trans (List.Perm.swap x y ys)
    · simp only [h, if_false]
      exact List.Perm.refl _

lemma foldl_insertSorted_perm (xs : List α) :
    ∀ acc, List.Perm (xs.foldl (fun a x => insertSorted le x a) acc) (acc ++ xs) := by
  induction xs with
  | nil => intro acc; simp
  | cons x xs ih =>
    intro acc
    simp only [List.foldl_cons]
    refine (ih _).trans ?_
    refine (((insertSorted_perm le x acc).append_right xs).trans ?_)
    exact (List.perm_middle).symm

/-- The stable sort is a permutation of its input. -/
lemma jsStableSort_perm (l : List α) : List.Perm (jsStableSort le l) l := by
  simpa using foldl_insertSorted_perm le l []

lemma mem_jsStableSort {l : List α} {a : α} : a ∈ jsStableSort le l ↔ a ∈ l :=
  (jsStableSort_perm le l).mem_iff

variable (htrans : ∀ a b c, le a b = true → le b c = true → le a c = true)
variable (htotal : ∀ a b, le a b = true ∨ le b a = true)

include htrans htotal

lemma insertSorted_sorted (x : α) (l : List α)
    (hl : l.Pairwise fun a b => le a b = true) :
    (insertSorted le x l).Pairwise fun a b => le a b = true := by
  induction l with
  | nil => simp [insertSorted]
  | cons y ys ih =>
    rw [List.pairwise_cons] at hl
    unfold insertSorted
    by_cases h : le y x
    · rw [if_pos h, List.pairwise_cons]
      refine ⟨fun z hz => ?_, ih hl.2⟩
      rcases List.mem_cons.mp ((insertSorted_perm le x ys).mem_iff.mp hz) with hz' | hz'
      · exact hz' ▸ h
      · exact hl.1 z hz'
    · rw [if_neg h, List.pairwise_cons]
      have hxy : le x y = true := (htotal x y).resolve_right h
      refine ⟨fun z hz => ?_, List.pairwise_cons.mpr ⟨hl.1, hl.2⟩⟩
      rcases List.mem_cons.mp hz with hz' | hz'
      · exact hz' ▸ hxy
      · exact htrans x y z hxy (hl.1 z hz')

lemma foldl_insertSorted_sorted (xs : List α) :
    ∀ acc, (acc.Pairwise fun a b => le a b = true) →
      ((xs.foldl (fun a x => insertSorted le x a) acc).Pairwise
        fun a b => le a b = true) := by
  induction xs with
  | nil => intro acc h; simpa using h
  | cons x xs ih =>
    intro acc h
    simp only [List.foldl_cons]
    exact ih _ (insertSorted_sorted le htrans htotal x acc h)

/-- The stable sort is sorted w.r.t. the (transitive, total) relation. -/
lemma jsStableSort_sorted (l : List α) :
    (jsStableSort le l).Pairwise fun a b => le a b = true :=
  foldl_insertSorted_sorted le htrans htotal l [] List.Pairwise.nil

variable (p : α → Bool)
variable (hp : ∀ a b, p a = true → p b = true → le a b = true)

include hp

omit htotal in
lemma insertSorted_filter (x : α) (l : List α)
    (hl : l.Pairwise fun a b => le a b = true) :
    (insertSorted le x l).filter p =
      if p x then l.filter p ++ [x] else l.filter p := by
  induction l with
  | nil => by_cases hx : p x <;> simp [insertSorted, hx]
  | cons y ys ih =>
    rw [List.pairwise_cons] at hl
    unfold insertSorted
    by_cases h : le y x
    · rw [if_pos h]
      by_cases hy : p y <;> by_cases hx : p x <;>
        simp [List.filter_cons, hy, hx, ih hl.2]
    · rw [if_neg h]
      by_cases hx : p x
      · have hrest : (y :: ys).filter p = [] := by
          rw [List.filter_eq_nil_iff]
          intro z hz hpz
          rcases List.mem_cons.mp hz with hz' | hz'
          · exact h (hz' ▸ hp z x hpz hx)
          · exact h (htrans y z x (hl.1 z hz') (hp z x hpz hx))
        simp [List.filter_cons, hx, hrest]
      · simp [List.filter_cons, hx]

lemma foldl_insertSorted_filter (xs : List α) :
    ∀ acc, (acc.Pairwise fun a b => le a b = true) →
      (xs.foldl (fun a x => insertSorted le x a) acc).filter p =
        acc.filter p ++ xs.filter p := by
  induction xs with
  | nil => intro acc h; simp
  | cons x xs ih =>
    intro acc h
    simp only [List.foldl_cons]
    rw [ih _ (insertSorted_sorted le htrans htotal x acc h),
      insertSorted_filter le htrans p hp x acc h]
    by_cases hx : p x <;> simp [hx, List.filter_cons]

/-- Stability: the stable sort preserves the subsequence (hence the
relative order) of the elements of any class of mutually-tied elements. -/
lemma jsStableSort_filter (l : List α) :
    (jsStableSort le l).filter p = l.filter p := by
  simpa using foldl_insertSorted_filter le htrans htotal p hp l [] List.Pairwise.nil

end SortLemmas

/-! ## Algebraic lemmas about the sums used by the regression -/

lemma listSum_nil : listSum [] = 0 := rfl

lemma listSum_cons (a : ℚ) (l : List ℚ) : listSum (a :: l) = a + listSum l := by
  simp [listSum]

lemma listSum_nonneg {l : List ℚ} (h : ∀ a ∈ l, 0 ≤ a) : 0 ≤ listSum l :=
  List.sum_nonneg h

lemma listSum_map_sq_nonneg {α : Type _} (l : List α) (f : α → ℚ) :
    0 ≤ listSum (l.map fun t => (f t) ^ 2) := by
  apply listSum_nonneg
  intro a ha
  obtain ⟨t, _, rfl⟩ := List.mem_map.mp ha
  positivity

lemma all_zero_of_listSum_eq_zero {l : List ℚ} (hnn : ∀ a ∈ l, 0 ≤ a)
    (h : listSum l = 0) : ∀ a ∈ l, a = 0 := by
  induction l with
  | nil => simp
  | cons b t ih =>
    rw [listSum_cons] at h
    have hb : 0 ≤ b := hnn b (by simp)
    have ht : 0 ≤ listSum t := listSum_nonneg fun a ha => hnn a (by simp [ha])
    have hb0 : b = 0 := by linarith
    have ht0 : listSum t = 0 := by linarith
    intro a ha
    rcases List.mem_cons.mp ha with rfl | ha'
    · exact hb0
    · exact ih (fun a ha => hnn a (by simp [ha])) ht0 a ha'

/-- Expansion of `Σ (t − m)²`. -/
lemma sum_sq_sub (y : List ℚ) (m : ℚ) :
    listSum (y.map fun t => (t - m) ^ 2) =
      listSum (y.map fun t => t ^ 2) - 2 * m * listSum y + m ^ 2 * y.length := by
  induction y with
  | nil => simp [listSum]
  | cons t ys ih =>
    simp only [List.map_cons, listSum_cons, List.length_cons, ih]
    push_cast
    ring

/-- Expansion of the residual sum of squares
`Σ (yᵢ − (b·xᵢ + a))²` against the raw sums. -/
lemma sum_res_expand :
    ∀ (x y : List ℚ) (b a : ℚ), x.length = y.length →
      listSum ((y.zip (x.map fun xi => b * xi + a)).map fun p => (p.1 - p.2) ^ 2) =
        listSum (y.map fun t => t ^ 2)
          - 2 * b * listSum ((x.zip y).map fun p => p.1 * p.2)
          - 2 * a * listSum y
          + b ^ 2 * listSum (x.map fun t => t * t)
          + 2 * a * b * listSum x
          + a ^ 2 * x.length
  | [], [], b, a, _ => by simp [listSum]
  | xi :: xs, yi :: ys, b, a, hlen => by
    have ih := sum_res_expand xs ys b a (by simpa using hlen)
    simp only [List.map_cons, List.zip_cons_cons, listSum_cons, List.length_cons, ih]
    push_cast
    ring

lemma sum_const (y : List ℚ) (c : ℚ) (h : ∀ t ∈ y, t = c) :
    listSum y = c * y.length := by
  induction y with
  | nil => simp [listSum]
  | cons t ys ih =>
    have ht : t = c := h t (by simp)
    have ih' := ih fun t ht' => h t (by simp [ht'])
    simp only [listSum_cons, List.length_cons, ih', ht]
    push_cast
    ring

lemma sum_zip_const :
    ∀ (x y : List ℚ) (c : ℚ), x.length = y.length → (∀ t ∈ y, t = c) →
      listSum ((x.zip y).map fun p => p.1 * p.2) = c * listSum x
  | [], [], c, _, _ => by simp [listSum]
  | xi :: xs, yi :: ys, c, hlen, h => by
    have hy : yi = c := h yi (by simp)
    have ih := sum_zip_const xs ys c (by simpa using hlen)
      (fun t ht => h t (by simp [ht]))
    simp only [List.zip_cons_cons, List.map_cons, listSum_cons, ih, hy]
    ring

/-! Closed forms of the sums over the index sequence `0, 1, …, n−1`. -/

@[simp] lemma rangeQ_length (n : ℕ) : (rangeQ n).length = n := by
  simp only [rangeQ, List.length_map, List.length_range]

lemma sum_rangeQ (n : ℕ) : listSum (rangeQ n) = n * (n - 1) / 2 := by
  induction n with
  | zero => simp [rangeQ, listSum]
  | succ m ih =>
    simp only [rangeQ] at ih ⊢
    rw [List.range_succ, List.map_append, listSum, List.sum_append]
    rw [show ((List.range m).map (Nat.cast : ℕ → ℚ)).sum =
      listSum ((List.range m).map (Nat.cast : ℕ → ℚ)) from rfl, ih]
    push_cast
    simp [listSum]
    ring

lemma sum_rangeQ_sq (n : ℕ) :
    listSum ((rangeQ n).map fun t => t * t) = n * (n - 1) * (2 * n - 1) / 6 := by
  induction n with
  | zero => simp [rangeQ, listSum]
  | succ m ih =>
    simp only [rangeQ] at ih ⊢
    rw [List.range_succ, List.map_append, List.map_append, listSum, List.sum_append]
    rw [show (((List.range m).map (Nat.cast : ℕ → ℚ)).map fun t => t * t).sum =
      listSum (((List.range m).map (Nat.cast : ℕ → ℚ)).map fun t => t * t) from rfl,
      ih]
    push_cast
    simp [listSum]
    ring

/-- The regression denominator over the index sequence:
`n·Σx² − (Σx)² = n²(n²−1)/12`. -/
lemma regDenom_rangeQ (n : ℕ) :
    (n : ℚ) * listSum ((rangeQ n).map fun t => t * t) -
      listSum (rangeQ n) * listSum (rangeQ n) =
      (n : ℚ) ^ 2 * ((n : ℚ) ^ 2 - 1) / 12 := by
  rw [sum_rangeQ, sum_rangeQ_sq]
  ring

lemma regDenom_rangeQ_pos {n : ℕ} (hn : 2 ≤ n) :
    0 < (n : ℚ) * listSum ((rangeQ n).map fun t => t * t) -
      listSum (rangeQ n) * listSum (rangeQ n) := by
  rw [regDenom_rangeQ]
  have h2 : (2 : ℚ) ≤ (n : ℚ) := by exact_mod_cast hn
  have h3 : (0 : ℚ) < (n : ℚ) ^ 2 - 1 := by nlinarith
  have h4 : (0 : ℚ) < (n : ℚ) ^ 2 := by nlinarith
  apply div_pos (mul_pos h4 h3)
  norm_num

lemma regDenom_rangeQ_pos' {n : ℕ} (hn : 2 ≤ n) : 0 < regDenom (rangeQ n) := by
  unfold regDenom
  rw [rangeQ_length]
  exact regDenom_rangeQ_pos hn

/-! ## The `fit`/`score` characterization and the R² bounds -/

lemma length_ne_zero_of_regDenom {x : List ℚ} (hD : regDenom x ≠ 0) :
    (x.length : ℚ) ≠ 0 := by
  intro h
  apply hD
  have h0 : x.length = 0 := by exact_mod_cast h
  rw [List.length_eq_zero] at h0
  subst h0
  simp [regDenom, listSum]

/-- Under a nonzero denominator, `fit` returns exactly the closed-form
slope and intercept. -/
lemma fit_eq_of_regDenom {x y : List ℚ} (hD : regDenom x ≠ 0) :
    SimpleLinearRegression.fit x y =
      { slope := some (slopeFormula x y), intercept := some (interceptFormula x y) } := by
  simp only [SimpleLinearRegression.fit, interceptFormula, slopeFormula, regDenom] at *
  rw [if_neg hD]

/-- Under a nonzero denominator, `score` is the `R²` of the closed-form
fit, NaN (`none`) exactly when `ssTot = 0`. -/
lemma score_eq_of_regDenom {x y : List ℚ} (hD : regDenom x ≠ 0) :
    (SimpleLinearRegression.fit x y).score x y =
      if ssTot y = 0 then none else some (1 - ssRes x y / ssTot y) := by
  rw [fit_eq_of_regDenom hD]
  unfold SimpleLinearRegression.score ssRes ssTot
  rfl

/-- The regression identity `ssTot − ssRes = N²/(n·D)` where
`N = n·Σxy − Σx·Σy` and `D = n·Σx² − (Σx)²`. -/
lemma ssTot_sub_ssRes {x y : List ℚ} (hlen : x.length = y.length)
    (hD : regDenom x ≠ 0) :
    ssTot y - ssRes x y =
      ((x.length : ℚ) * listSum ((x.zip y).map fun p => p.1 * p.2) -
          listSum x * listSum y) ^ 2 / ((x.length : ℚ) * regDenom x) := by
  have hn := length_ne_zero_of_regDenom hD
  rw [ssTot, ssRes, sum_sq_sub, sum_res_expand x y _ _ hlen]
  rw [slopeFormula, interceptFormula, slopeFormula, ← hlen]
  rw [regDenom] at hD ⊢
  field_simp
  ring

lemma ssRes_nonneg (x y : List ℚ) : 0 ≤ ssRes x y := by
  unfold ssRes
  exact listSum_map_sq_nonneg _ _

lemma ssTot_nonneg (y : List ℚ) : 0 ≤ ssTot y := by
  unfold ssTot
  exact listSum_map_sq_nonneg _ _

/-- Over the index regressors, a defined `R²` lies in `[0,1]`: the OLS
residual never exceeds the total sum of squares. -/
lemma score_bounds_rangeQ {y : List ℚ} {n : ℕ} (hlen : y.length = n) (hn : 2 ≤ n)
    (hTot : ssTot y ≠ 0) :
    (SimpleLinearRegression.fit (rangeQ n) y).score (rangeQ n) y =
      some (1 - ssRes (rangeQ n) y / ssTot y) ∧
      0 ≤ 1 - ssRes (rangeQ n) y / ssTot y ∧
      1 - ssRes (rangeQ n) y / ssTot y ≤ 1 := by
  have hD : regDenom (rangeQ n) ≠ 0 := ne_of_gt (regDenom_rangeQ_pos' hn)
  have hlen' : (rangeQ n).length = y.length := by rw [rangeQ_length, hlen]
  have hid := ssTot_sub_ssRes hlen' hD
  have hTotPos : 0 < ssTot y := lt_of_le_of_ne (ssTot_nonneg y) (Ne.symm hTot)
  have hnum : 0 ≤ ssTot y - ssRes (rangeQ n) y := by
    rw [hid]
    have hnpos : (0 : ℚ) < ((rangeQ n).length : ℚ) := by
      rw [rangeQ_length]
      have : 0 < n := by omega
      exact_mod_cast this
    exact div_nonneg (sq_nonneg _)
      (le_of_lt (mul_pos hnpos (regDenom_rangeQ_pos' hn)))
  constructor
  · rw [score_eq_of_regDenom hD, if_neg hTot]
  constructor
  · have h1 : ssRes (rangeQ n) y / ssTot y ≤ 1 := by
      rw [div_le_one hTotPos]
      linarith
    linarith
  · have h2 : 0 ≤ ssRes (rangeQ n) y / ssTot y :=
      div_nonneg (ssRes_nonneg _ _) (le_of_lt hTotPos)
    linarith

/-- If `ssTot = 0` (all values equal), the closed-form slope over index
regressors is `0`: the degenerate-variance case cannot pass the trend
threshold. -/
lemma slopeFormula_eq_zero_of_ssTot_zero {y : List ℚ} {n : ℕ}
    (hlen : y.length = n) (hTot : ssTot y = 0) :
    slopeFormula (rangeQ n) y = 0 := by
  set m := listSum y / y.length with hm
  have hconst : ∀ t ∈ y, t = m := by
    intro t ht
    have hz := all_zero_of_listSum_eq_zero
      (l := y.map fun t => (t - m) ^ 2)
      (fun a ha => by
        obtain ⟨t', _, rfl⟩ := List.mem_map.mp ha
        positivity)
      hTot ((t - m) ^ 2) (List.mem_map.mpr ⟨t, ht, rfl⟩)
    have : t - m = 0 := by
      have := sq_eq_zero_iff.mp hz
      exact this
    linarith
  have hxy : listSum (((rangeQ n).zip y).map fun p => p.1 * p.2) =
      m * listSum (rangeQ n) :=
    sum_zip_const _ _ _ (by rw [rangeQ_length, hlen]) hconst
  have hy : listSum y = m * y.length := sum_const y m hconst
  unfold slopeFormula
  rw [hxy, hy, rangeQ_length, hlen]
  rw [show (n : ℚ) * (m * listSum (rangeQ n)) - listSum (rangeQ n) * (m * n) = 0 by ring]
  exact zero_div _

/-! ## Cauchy–Schwarz and the correlation bound -/

/-- Cauchy–Schwarz for lists of pairs:
`(Σ aᵢbᵢ)² ≤ (Σ aᵢ²)(Σ bᵢ²)`. -/
lemma listSum_mul_sq_le (l : List (ℚ × ℚ)) :
    (listSum (l.map fun p => p.1 * p.2)) ^ 2 ≤
      listSum (l.map fun p => p.1 ^ 2) * listSum (l.map fun p => p.2 ^ 2) := by
  induction l with
  | nil => simp [listSum]
  | cons ab l ih =>
    obtain ⟨a, b⟩ := ab
    simp only [List.map_cons, listSum_cons]
    set A := listSum (l.map fun p => p.1 * p.2) with hA
    set S := listSum (l.map fun p => p.1 ^ 2) with hS
    set T := listSum (l.map fun p => p.2 ^ 2) with hT
    have hSnn : 0 ≤ S := listSum_map_sq_nonneg l _
    have hTnn : 0 ≤ T := listSum_map_sq_nonneg l _
    by_cases hT0 : T = 0
    · have hA2 : A ^ 2 ≤ 0 := by
        have := ih
        rw [hT0, mul_zero] at this
        exact this
      have hA0 : A = 0 := by nlinarith [sq_nonneg A]
      rw [hT0, hA0]
      nlinarith [sq_nonneg b, sq_nonneg a, mul_nonneg hSnn (sq_nonneg b)]
    · have hTpos : 0 < T := lt_of_le_of_ne hTnn (Ne.symm hT0)
      nlinarith [ih, sq_nonneg (T * a - A * b), mul_pos hTpos hTpos,
        mul_nonneg (mul_nonneg hSnn hTnn) (sq_nonneg b), sq_nonneg b]

/-- Cauchy–Schwarz for the sample moments: `cov² ≤ varₓ·var_y`. -/
lemma sampleCovariance_sq_le {x y : List ℚ} (hlen : x.length = y.length) :
    (sampleCovariance x y) ^ 2 ≤ sampleVariance x * sampleVariance y := by
  unfold sampleCovariance sampleVariance
  set m1 := ssMean x
  set m2 := ssMean y
  set l := (x.zip y).map fun p => (p.1 - m1, p.2 - m2) with hl
  have e0 : ((x.zip y).map fun p => (p.1 - m1) * (p.2 - m2)) =
      l.map fun p => p.1 * p.2 := by
    rw [hl, List.map_map]
    rfl
  have efst : (x.map fun t => (t - m1) ^ 2) = l.map fun p => p.1 ^ 2 := by
    rw [hl, List.map_map]
    conv_lhs => rw [← List.map_fst_zip x y (le_of_eq hlen)]
    rw [List.map_map]
    rfl
  have esnd : (y.map fun t => (t - m2) ^ 2) = l.map fun p => p.2 ^ 2 := by
    rw [hl, List.map_map]
    conv_lhs => rw [← List.map_snd_zip x y (ge_of_eq hlen)]
    rw [List.map_map]
    rfl
  rw [e0, efst, esnd, ← hlen]
  rw [div_mul_div_comm, div_pow,
    show ((x.length : ℚ) - 1) * ((x.length : ℚ) - 1) = ((x.length : ℚ) - 1) ^ 2 from
      (pow_two _).symm]
  rcases eq_or_ne ((x.length : ℚ) - 1) 0 with hc | hc
  · simp [hc]
  · have hc2 : 0 < ((x.length : ℚ) - 1) ^ 2 := by positivity
    exact (div_le_div_iff_of_pos_right hc2).mpr (listSum_mul_sq_le l)

/-- If the first column is constant (zero sample variance), the sample
covariance vanishes: the `0/0` NaN case of `sampleCorrelation`. -/
lemma covariance_eq_zero_of_var_left {x y : List ℚ}
    (hn : 2 ≤ x.length) (hv : sampleVariance x = 0) : sampleCovariance x y = 0 := by
  have hd : ((x.length : ℚ) - 1) ≠ 0 := by
    have : (2 : ℚ) ≤ (x.length : ℚ) := by exact_mod_cast hn
    intro h
    nlinarith
  unfold sampleVariance at hv
  rw [div_eq_zero_iff] at hv
  rcases hv with hv | hv
  swap
  · exact absurd hv hd
  have hall := all_zero_of_listSum_eq_zero
    (l := x.map fun t => (t - ssMean x) ^ 2)
    (fun a ha => by
      obtain ⟨t, _, rfl⟩ := List.mem_map.mp ha
      positivity) hv
  unfold sampleCovariance
  rw [div_eq_zero_iff]
  left
  unfold listSum
  apply List.sum_eq_zero
  intro a ha
  obtain ⟨p, hp, rfl⟩ := List.mem_map.mp ha
  have hmem : p.1 ∈ x := (List.of_mem_zip hp).1
  have hz := hall ((p.1 - ssMean x) ^ 2) (List.mem_map.mpr ⟨p.1, hmem, rfl⟩)
  have h1 : p.1 - ssMean x = 0 := sq_eq_zero_iff.mp hz
  rw [h1, zero_mul]

/-! ## Per-analyzer facts: type and confidence of every emitted insight -/

lemma sampleVariance_nonneg {x : List ℚ} (hn : 2 ≤ x.length) :
    0 ≤ sampleVariance x := by
  unfold sampleVariance
  apply div_nonneg (listSum_map_sq_nonneg _ _)
  have : (2 : ℚ) ≤ (x.length : ℚ) := by exact_mod_cast hn
  linarith

/-- Every trend insight has confidence `some (min (R²·100) 95)` with the
stored rational in `[0, 95]`. -/
lemma trendInsightsForColumn_spec (data : Dataset) (dc col : String) :
    ∀ i ∈ trendInsightsForColumn data dc col,
      i.type = .trend ∧ ∃ q : ℚ, i.confidence = some (RQ.ofQ q) ∧ 0 ≤ q ∧ q ≤ 95 := by
  intro i hi
  simp only [trendInsightsForColumn] at hi
  by_cases h3 : (prepareTimeSeriesData data dc col).length < 3
  · simp [h3] at hi
  · rw [if_neg h3] at hi
    set ts := prepareTimeSeriesData data dc col with hts
    by_cases hg : jqGtQ (jqAbs (calculateTrend ts).slope) (1 / 100) = true
    · rw [if_pos hg] at hi
      rw [List.mem_singleton] at hi
      subst hi
      refine ⟨rfl, ?_⟩
      -- the guard forces a defined, nonzero slope, hence `ssTot ≠ 0`
      set y := ts.map (·.value) with hy
      have hlen : y.length = ts.length := by simp [hy]
      have hn2 : 2 ≤ ts.length := by omega
      have hTot : ssTot y ≠ 0 := by
        intro hTot0
        have hs0 : slopeFormula (rangeQ ts.length) y = 0 :=
          slopeFormula_eq_zero_of_ssTot_zero hlen hTot0
        have hD : regDenom (rangeQ ts.length) ≠ 0 :=
          ne_of_gt (regDenom_rangeQ_pos' hn2)
        have hfit := fit_eq_of_regDenom (y := y) hD
        simp only [calculateTrend, hfit, ← hy, hs0, jqAbs, jqGtQ, Option.map_some,
          abs_zero] at hg
        norm_num at hg
      obtain ⟨hscore, hr0, hr1⟩ := score_bounds_rangeQ (n := ts.length) hlen hn2 hTot
      simp only [calculateTrend, ← hy, hscore, jqMinQ, Option.map_some]
      exact ⟨min ((1 - ssRes (rangeQ ts.length) y / ssTot y) * 100) 95, rfl,
        le_min (by linarith) (by norm_num), min_le_right _ _⟩
    · rw [if_neg hg] at hi
      simp at hi

/-- Every correlation insight stores `|r|·100` with real value in
`[0, 100]` (Cauchy–Schwarz). -/
lemma corrInsightsForPair_spec (data : Dataset) (c1 c2 : String) :
    ∀ i ∈ corrInsightsForPair data c1 c2,
      i.type = .correlation ∧ ∃ z : RQ, i.confidence = some z ∧
        0 ≤ z.val ∧ z.val ≤ 100 := by
  intro i hi
  simp only [corrInsightsForPair] at hi
  set v1 := parsedValues data c1 with hv1
  set v2 := parsedValues data c2 with hv2
  by_cases hlen : v1.length ≠ v2.length ∨ v1.length < 3
  · simp [hlen] at hi
  · rw [if_neg hlen] at hi
    push_neg at hlen
    obtain ⟨hleq, hge3⟩ := hlen
    by_cases hg : rqAbsGtQ (sampleCorrelation v1 v2) (1 / 2) = true
    · rw [if_pos hg] at hi
      rw [List.mem_singleton] at hi
      subst hi
      refine ⟨rfl, ?_⟩
      -- the emission guard forces a non-NaN correlation
      unfold rqAbsGtQ at hg
      cases hcz : sampleCorrelation v1 v2 with
      | none => rw [hcz] at hg; exact absurd hg (by simp)
      | some z =>
        simp only [Option.map_some]
        refine ⟨RQ.scale 100 z.abs, rfl, ?_, ?_⟩
        · rw [RQ.scale_val, RQ.abs_val]
          positivity
        · -- `|z.val| ≤ 1` by Cauchy–Schwarz
          unfold sampleCorrelation at hcz
          set D := sampleVariance v1 * sampleVariance v2 with hD
          by_cases hD0 : D = 0
          · rw [if_pos hD0] at hcz; exact absurd hcz (by simp)
          · rw [if_neg hD0] at hcz
            have hzz : z = ⟨sampleCovariance v1 v2 / D, D⟩ := by
              injection hcz with h
              exact h.symm
            have hvar1 : 0 ≤ sampleVariance v1 := sampleVariance_nonneg (by omega)
            have hvar2 : 0 ≤ sampleVariance v2 := sampleVariance_nonneg (by
              rw [← hleq]; omega)
            have hDpos : 0 < D := lt_of_le_of_ne (hD ▸ mul_nonneg hvar1 hvar2)
              (Ne.symm hD0)
            have hcs : (sampleCovariance v1 v2) ^ 2 ≤ D :=
              hD ▸ sampleCovariance_sq_le hleq
            have habs : |z.val| ≤ 1 := by
              rw [hzz]
              apply RQ.abs_val_le_one hDpos
              have heq : (sampleCovariance v1 v2 / D) ^ 2 * D =
                  sampleCovariance v1 v2 ^ 2 / D := by
                field_simp
                ring
              rw [heq, div_le_one hDpos]
              exact hcs
            rw [RQ.scale_val, RQ.abs_val]
            push_cast
            linarith [habs, abs_nonneg z.val]
    · rw [if_neg hg] at hi
      simp at hi

/-- Every anomaly insight stores `min((count/total)·500, 90)` with the
rational in `[0, 90]`. -/
lemma anomalyInsightsForColumn_spec (data : Dataset) (col : String) :
    ∀ i ∈ anomalyInsightsForColumn data col,
      i.type = .anomaly ∧ ∃ q : ℚ, i.confidence = some (RQ.ofQ q) ∧
        0 ≤ q ∧ q ≤ 90 := by
  intro i hi
  simp only [anomalyInsightsForColumn] at hi
  by_cases h10 : (parsedValues data col).length < 10
  · simp [h10] at hi
  · rw [if_neg h10] at hi
    by_cases hcnt : (anomalousRows data col (ssMean (parsedValues data col))
        (popVariance (parsedValues data col))).length > 0
    · rw [if_pos hcnt] at hi
      rw [List.mem_singleton] at hi
      subst hi
      refine ⟨rfl, _, rfl, ?_, min_le_right _ _⟩
      apply le_min ?_ (by norm_num)
      have htot : (0 : ℚ) < ((parsedValues data col).length : ℚ) := by
        have : 0 < (parsedValues data col).length := by omega
        exact_mod_cast this
      positivity
    · rw [if_neg hcnt] at hi
      simp at hi

/-- Every segmentation insight has confidence exactly `75`. -/
lemma performSegmentation_spec (km : KMeansFn) (data : Dataset) :
    ∀ i ∈ performSegmentation km data,
      i.type = .segment ∧ i.confidence = some (RQ.ofQ 75) := by
  intro i hi
  simp only [performSegmentation] at hi
  by_cases hg : (getNumericColumns data).length < 2 ∨ data.length < 10
  · simp [hg] at hi
  · rw [if_neg hg] at hi
    cases hcols : getNumericColumns data with
    | nil => simp [hcols] at hi
    | cons c1 rest =>
      cases rest with
      | nil => simp [hcols] at hi
      | cons c2 rest2 =>
        simp only [hcols] at hi
        by_cases h6 : (segPoints data c1 c2).length < 6
        · simp [h6] at hi
        · rw [if_neg h6] at hi
          rw [List.mem_singleton] at hi
          subst hi
          exact ⟨rfl, rfl⟩

/-- Every prediction insight stores `min (R²·100) 85` with the rational in
`[0, 85]` (the `R² > 0.3` gate gives the lower bound). -/
lemma predictionInsightsForColumn_spec (data : Dataset) (dc col : String) :
    ∀ i ∈ predictionInsightsForColumn data dc col,
      i.type = .prediction ∧ ∃ q : ℚ, i.confidence = some (RQ.ofQ q) ∧
        0 ≤ q ∧ q ≤ 85 := by
  intro i hi
  simp only [predictionInsightsForColumn] at hi
  by_cases h5 : (prepareTimeSeriesData data dc col).length < 5
  · simp [h5] at hi
  · rw [if_neg h5] at hi
    set ts := prepareTimeSeriesData data dc col with hts
    set reg := SimpleLinearRegression.fit (rangeQ ts.length) (ts.map (·.value)) with hreg
    by_cases hg : jqGtQ (reg.score (rangeQ ts.length) (ts.map (·.value))) (3 / 10) = true
    · rw [if_pos hg] at hi
      rw [List.mem_singleton] at hi
      subst hi
      refine ⟨rfl, ?_⟩
      unfold jqGtQ at hg
      cases hsc : reg.score (rangeQ ts.length) (ts.map (·.value)) with
      | none => rw [hsc] at hg; exact absurd hg (by simp)
      | some r =>
        rw [hsc] at hg
        have hg' : (3 : ℚ) / 10 < r := by simpa using hg
        simp only [jqMinQ, Option.map_some]
        exact ⟨min (r * 100) 85, rfl, le_min (by linarith) (by norm_num),
          min_le_right _ _⟩
    · rw [if_neg hg] at hi
      simp at hi

/-! ## Pipeline-level lemmas -/

/-- The concatenation of the five analyzer outputs in generation order. -/
def analyzerConcat (km : KMeansFn) (data : Dataset) : List Insight :=
  identifyTrends data ++ findCorrelations data ++ detectAnomalies data ++
    performSegmentation km data ++ generatePredictions data

lemma identifyTrends_nil : identifyTrends [] = [] := rfl

lemma findCorrelations_nil : findCorrelations [] = [] := rfl

lemma detectAnomalies_nil : detectAnomalies [] = [] := rfl

lemma performSegmentation_nil (km : KMeansFn) : performSegmentation km [] = [] := rfl

lemma generatePredictions_nil : generatePredictions [] = [] := rfl

/-- `generateInsights` is exactly the stable sort of the concatenation (for
the empty dataset both sides are empty). -/
lemma generateInsights_eq (km : KMeansFn) (data : Dataset) :
    generateInsights km data = jsStableSort insightLe (analyzerConcat km data) := by
  cases data with
  | nil => rfl
  | cons r rest => rfl

lemma insightLe_total : ∀ a b : Insight, insightLe a b = true ∨ insightLe b a = true := by
  intro a b
  unfold insightLe
  cases ha : a.confidence with
  | none =>
    cases hb : b.confidence with
    | none => simp
    | some zb => simp
  | some za =>
    cases hb : b.confidence with
    | none => simp
    | some zb =>
      rcases le_total za.val zb.val with h | h
      · right
        exact (RQ.leb_iff za zb).mpr h
      · left
        exact (RQ.leb_iff zb za).mpr h

lemma insightLe_trans : ∀ a b c : Insight,
    insightLe a b = true → insightLe b c = true → insightLe a c = true := by
  intro a b c hab hbc
  unfold insightLe at *
  cases ha : a.confidence with
  | none =>
    rw [ha] at hab
    cases hb : b.confidence with
    | none =>
      rw [hb] at hbc
      cases hc : c.confidence with
      | none => simp
      | some zc => rw [hc] at hbc; exact absurd hbc (by simp)
    | some zb => rw [hb] at hab; exact absurd hab (by simp)
  | some za =>
    cases hc : c.confidence with
    | none => simp
    | some zc =>
      cases hb : b.confidence with
      | none => rw [hb, hc] at hbc; exact absurd hbc (by simp)
      | some zb =>
        rw [ha, hb] at hab
        rw [hb, hc] at hbc
        exact (RQ.leb_iff zc za).mpr
          (le_trans ((RQ.leb_iff zc zb).mp hbc) ((RQ.leb_iff zb za).mp hab))

/-- Membership in `identifyTrends` comes from a per-column emission. -/
lemma mem_identifyTrends {data : Dataset} {i : Insight} (hi : i ∈ identifyTrends data) :
    ∃ dc col, getDateColumn data = some dc ∧ col ∈ getNumericColumns data ∧
      i ∈ trendInsightsForColumn data dc col := by
  unfold identifyTrends at hi
  cases hdc : getDateColumn data with
  | none => simp [hdc] at hi
  | some dc =>
    simp only [hdc] at hi
    by_cases he : (getNumericColumns data).isEmpty
    · simp [he] at hi
    · rw [if_neg he] at hi
      obtain ⟨col, hcol, hmem⟩ := List.mem_flatMap.mp hi
      exact ⟨dc, col, rfl, hcol, hmem⟩

/-- Membership in `findCorrelations` comes from a per-pair emission. -/
lemma mem_findCorrelations {data : Dataset} {i : Insight}
    (hi : i ∈ findCorrelations data) :
    ∃ c1 c2, (c1, c2) ∈ pairsAfter (getNumericColumns data) ∧
      i ∈ corrInsightsForPair data c1 c2 := by
  unfold findCorrelations at hi
  by_cases h2 : (getNumericColumns data).length < 2
  · simp [h2] at hi
  · rw [if_neg h2] at hi
    obtain ⟨⟨c1, c2⟩, hpair, hmem⟩ := List.mem_flatMap.mp hi
    exact ⟨c1, c2, hpair, hmem⟩

/-- Membership in `detectAnomalies` comes from a per-column emission. -/
lemma mem_detectAnomalies {data : Dataset} {i : Insight}
    (hi : i ∈ detectAnomalies data) :
    ∃ col ∈ getNumericColumns data, i ∈ anomalyInsightsForColumn data col := by
  unfold detectAnomalies at hi
  exact List.mem_flatMap.mp hi

/-- Membership in `generatePredictions` comes from a per-column emission. -/
lemma mem_generatePredictions {data : Dataset} {i : Insight}
    (hi : i ∈ generatePredictions data) :
    ∃ dc col, getDateColumn data = some dc ∧ col ∈ getNumericColumns data ∧
      i ∈ predictionInsightsForColumn data dc col := by
  unfold generatePredictions at hi
  cases hdc : getDateColumn data with
  | none => simp [hdc] at hi
  | some dc =>
    simp only [hdc] at hi
    by_cases he : (getNumericColumns data).isEmpty ∨ data.length < 5
    · rw [if_pos he] at hi
      simp at hi
    · rw [if_neg he] at hi
      obtain ⟨col, hcol, hmem⟩ := List.mem_flatMap.mp hi
      exact ⟨dc, col, rfl, hcol, hmem⟩

/-- Type and confidence facts for every insight in the concatenation. -/
lemma analyzerConcat_spec (km : KMeansFn) (data : Dataset) :
    ∀ i ∈ analyzerConcat km data,
      (∃ z : RQ, i.confidence = some z ∧ 0 ≤ z.val ∧ z.val ≤ 100) ∧
      (i.type = .trend → confVal i ≤ 95) ∧
      (i.type = .anomaly → confVal i ≤ 90) ∧
      (i.type = .prediction → confVal i ≤ 85) ∧
      (i.type = .segment → confVal i = 75) := by
  intro i hi
  unfold analyzerConcat at hi
  simp only [List.append_assoc, List.mem_append] at hi
  rcases hi with hi | hi | hi | hi | hi
  · -- trend
    obtain ⟨dc, col, -, -, hmem⟩ := mem_identifyTrends hi
    obtain ⟨hty, q, hconf, hq0, hq95⟩ := trendInsightsForColumn_spec data dc col i hmem
    have hcv : confVal i = (q : ℝ) := by simp only [confVal, hconf, RQ.ofQ_val]
    refine ⟨⟨RQ.ofQ q, hconf, by rw [RQ.ofQ_val]; exact_mod_cast hq0,
      by rw [RQ.ofQ_val]; exact_mod_cast le_trans hq95 (by norm_num)⟩,
      fun _ => by rw [hcv]; exact_mod_cast hq95,
      fun h => absurd (hty ▸ h) (by decide),
      fun h => absurd (hty ▸ h) (by decide),
      fun h => absurd (hty ▸ h) (by decide)⟩
  · -- correlation
    obtain ⟨c1, c2, -, hmem⟩ := mem_findCorrelations hi
    obtain ⟨hty, z, hconf, hz0, hz100⟩ := corrInsightsForPair_spec data c1 c2 i hmem
    exact ⟨⟨z, hconf, hz0, hz100⟩,
      fun h => absurd (hty ▸ h) (by decide),
      fun h => absurd (hty ▸ h) (by decide),
      fun h => absurd (hty ▸ h) (by decide),
      fun h => absurd (hty ▸ h) (by decide)⟩
  · -- anomaly
    obtain ⟨col, -, hmem⟩ := mem_detectAnomalies hi
    obtain ⟨hty, q, hconf, hq0, hq90⟩ := anomalyInsightsForColumn_spec data col i hmem
    have hcv : confVal i = (q : ℝ) := by simp only [confVal, hconf, RQ.ofQ_val]
    refine ⟨⟨RQ.ofQ q, hconf, by rw [RQ.ofQ_val]; exact_mod_cast hq0,
      by rw [RQ.ofQ_val]; exact_mod_cast le_trans hq90 (by norm_num)⟩,
      fun h => absurd (hty ▸ h) (by decide),
      fun _ => by rw [hcv]; exact_mod_cast hq90,
      fun h => absurd (hty ▸ h) (by decide),
      fun h => absurd (hty ▸ h) (by decide)⟩
  · -- segment
    obtain ⟨hty, hconf⟩ := performSegmentation_spec km data i hi
    have hcv : confVal i = ((75 : ℚ) : ℝ) := by simp only [confVal, hconf, RQ.ofQ_val]
    refine ⟨⟨RQ.ofQ 75, hconf, by rw [RQ.ofQ_val]; norm_num,
      by rw [RQ.ofQ_val]; norm_num⟩,
      fun h => absurd (hty ▸ h) (by decide),
      fun h => absurd (hty ▸ h) (by decide),
      fun h => absurd (hty ▸ h) (by decide),
      fun _ => by rw [hcv]; norm_num⟩
  · -- prediction
    obtain ⟨dc, col, -, -, hmem⟩ := mem_generatePredictions hi
    obtain ⟨hty, q, hconf, hq0, hq85⟩ :=
      predictionInsightsForColumn_spec data dc col i hmem
    have hcv : confVal i = (q : ℝ) := by simp only [confVal, hconf, RQ.ofQ_val]
    refine ⟨⟨RQ.ofQ q, hconf, by rw [RQ.ofQ_val]; exact_mod_cast hq0,
      by rw [RQ.ofQ_val]; exact_mod_cast le_trans hq85 (by norm_num)⟩,
      fun h => absurd (hty ▸ h) (by decide),
      fun h => absurd (hty ▸ h) (by decide),
      fun _ => by rw [hcv]; exact_mod_cast hq85,
      fun h => absurd (hty ▸ h) (by decide)⟩

/-! ## The claims -/

/-- **C1** — For every dataset, the insight sequence returned by the core
entry point is the concatenation of the five analyzers' outputs in the
fixed order trend, correlation, anomaly, segment, prediction,
stable-sorted descending by confidence: the result is non-increasing in
confidence, and insights with equal confidence appear in that generation
order (their subsequence is exactly the one of the concatenation). -/
theorem claim1_ranker_sorted_stable (km : KMeansFn) (data : Dataset) :
    generateInsights km data = jsStableSort insightLe (analyzerConcat km data) ∧
    (generateInsights km data).Pairwise (fun a b => confVal b ≤ confVal a) ∧
    ∀ x : RQ, (generateInsights km data).filter (confClass x) =
      (analyzerConcat km data).filter (confClass x) := by
  refine ⟨generateInsights_eq km data, ?_, ?_⟩
  · rw [generateInsights_eq]
    have hs := jsStableSort_sorted insightLe insightLe_trans insightLe_total
      (analyzerConcat km data)
    refine List.Pairwise.imp_of_mem ?_ hs
    intro a b ha hb hle
    have ha' := (mem_jsStableSort insightLe).mp ha
    have hb' := (mem_jsStableSort insightLe).mp hb
    obtain ⟨⟨za, hza, -, -⟩, -⟩ := analyzerConcat_spec km data a ha'
    obtain ⟨⟨zb, hzb, -, -⟩, -⟩ := analyzerConcat_spec km data b hb'
    unfold insightLe at hle
    rw [hza, hzb] at hle
    have := (RQ.leb_iff zb za).mp hle
    simp only [confVal, hza, hzb]
    exact this
  · intro x
    rw [generateInsights_eq]
    apply jsStableSort_filter insightLe insightLe_trans insightLe_total (confClass x)
    intro a b hpa hpb
    unfold confClass at hpa hpb
    unfold insightLe
    cases ha : a.confidence with
    | none => rw [ha] at hpa; exact absurd hpa (by simp)
    | some za =>
      cases hb : b.confidence with
      | none => rfl
      | some zb =>
        rw [ha] at hpa
        rw [hb] at hpb
        have ea : za.val = x.val := (RQ.eqb_iff za x).mp hpa
        have eb : zb.val = x.val := (RQ.eqb_iff zb x).mp hpb
        exact (RQ.leb_iff zb za).mpr (by rw [ea, eb])

/-- **C2** — For every well-formed dataset the entry point returns a
(possibly empty) insight sequence — in the embedding the pipeline is a
total function, and no insight is lost to an exception: the result is a
permutation of everything the analyzers produced; for the empty dataset it
returns the empty sequence. -/
theorem claim2_total_empty (km : KMeansFn) (data : Dataset) :
    generateInsights km [] = [] ∧
    List.Perm (generateInsights km data) (analyzerConcat km data) := by
  refine ⟨rfl, ?_⟩
  rw [generateInsights_eq]
  exact jsStableSort_perm insightLe (analyzerConcat km data)

/-- **C4** — Every insight emitted by the core has confidence between 0
and 100; trend insights are capped at 95, anomaly at 90, prediction at 85,
and segment insights have confidence exactly 75. -/
theorem claim4_confidence_bounds (km : KMeansFn) (data : Dataset) :
    ∀ i ∈ generateInsights km data,
      (∃ z : RQ, i.confidence = some z ∧ 0 ≤ confVal i ∧ confVal i ≤ 100) ∧
      (i.type = .trend → confVal i ≤ 95) ∧
      (i.type = .anomaly → confVal i ≤ 90) ∧
      (i.type = .prediction → confVal i ≤ 85) ∧
      (i.type = .segment → confVal i = 75) := by
  intro i hi
  rw [generateInsights_eq] at hi
  have hi' := (mem_jsStableSort insightLe).mp hi
  obtain ⟨⟨z, hz, h0, h100⟩, ht, han, hp, hseg⟩ := analyzerConcat_spec km data i hi'
  have hcv : confVal i = z.val := by simp only [confVal, hz]
  exact ⟨⟨z, hz, by rw [hcv]; exact h0, by rw [hcv]; exact h100⟩, ht, han, hp, hseg⟩

/-- Witness for **C4**: on the constant ten-row dataset the pipeline emits
exactly the segmentation insight, whose confidence is exactly 75 (and lies
within the global bounds). -/
theorem claim4_witness :
    segInsightW ∈ generateInsights kmW dataConst10 ∧ confVal segInsightW = 75 ∧
      0 ≤ confVal segInsightW := by
  have hmem : segInsightW ∈ generateInsights kmW dataConst10 := by decide
  obtain ⟨⟨z, hz, h0, h100⟩, -, -, -, hseg⟩ :=
    claim4_confidence_bounds kmW dataConst10 segInsightW hmem
  exact ⟨hmem, hseg rfl, h0⟩

/-- All `ssTot` terms vanish on a constant value list. -/
lemma ssTot_eq_zero_of_const (y : List ℚ) (v : ℚ) (h : ∀ t ∈ y, t = v) :
    ssTot y = 0 := by
  cases y with
  | nil => simp [ssTot, listSum]
  | cons a t =>
    have hlen : ((a :: t).length : ℚ) ≠ 0 := by
      simp only [List.length_cons]
      push_cast
      positivity
    have hm : (a :: t).sum / (((a :: t).length : ℕ) : ℚ) = v := by
      rw [show (a :: t).sum = listSum (a :: t) from rfl, sum_const (a :: t) v h]
      field_simp
    unfold ssTot listSum
    apply List.sum_eq_zero
    intro b hb
    obtain ⟨s, hs, rfl⟩ := List.mem_map.mp hb
    rw [hm, h s hs]
    ring

/-- **C3** — No analyzer's (or column's) failure or degradation removes
another analyzer's insights: each analyzer's full output is contained in
the final result, unconditionally; and a column whose series degenerates
(constant values, i.e. zero variance, the `0/0` R² case) simply yields no
trend/prediction insight for that column. -/
theorem claim3_local_fault_isolation (km : KMeansFn) (data : Dataset) :
    (∀ i ∈ identifyTrends data, i ∈ generateInsights km data) ∧
    (∀ i ∈ findCorrelations data, i ∈ generateInsights km data) ∧
    (∀ i ∈ detectAnomalies data, i ∈ generateInsights km data) ∧
    (∀ i ∈ performSegmentation km data, i ∈ generateInsights km data) ∧
    (∀ i ∈ generatePredictions data, i ∈ generateInsights km data) ∧
    (∀ dc col v, (∀ p ∈ prepareTimeSeriesData data dc col, p.value = v) →
      trendInsightsForColumn data dc col = [] ∧
      predictionInsightsForColumn data dc col = []) := by
  have hmem : ∀ i ∈ analyzerConcat km data, i ∈ generateInsights km data := by
    intro i hi
    rw [generateInsights_eq]
    exact (mem_jsStableSort insightLe).mpr hi
  have hsub : ∀ i, (i ∈ identifyTrends data ∨ i ∈ findCorrelations data ∨
      i ∈ detectAnomalies data ∨ i ∈ performSegmentation km data ∨
      i ∈ generatePredictions data) → i ∈ analyzerConcat km data := by
    intro i hi
    unfold analyzerConcat
    simp only [List.append_assoc, List.mem_append]
    exact hi
  refine ⟨fun i hi => hmem i (hsub i (Or.inl hi)),
    fun i hi => hmem i (hsub i (Or.inr (Or.inl hi))),
    fun i hi => hmem i (hsub i (Or.inr (Or.inr (Or.inl hi)))),
    fun i hi => hmem i (hsub i (Or.inr (Or.inr (Or.inr (Or.inl hi))))),
    fun i hi => hmem i (hsub i (Or.inr (Or.inr (Or.inr (Or.inr hi))))),
    ?_⟩
  intro dc col v hconst
  have hy : ∀ t ∈ (prepareTimeSeriesData data dc col).map (·.value), t = v := by
    intro t ht
    obtain ⟨p, hp, rfl⟩ := List.mem_map.mp ht
    exact hconst p hp
  have hTot0 : ssTot ((prepareTimeSeriesData data dc col).map (·.value)) = 0 :=
    ssTot_eq_zero_of_const _ v hy
  have hylen : ((prepareTimeSeriesData data dc col).map (·.value)).length =
      (prepareTimeSeriesData data dc col).length := List.length_map _ _
  constructor
  · -- trend: the slope is exactly 0, failing the `> 0.01` threshold
    unfold trendInsightsForColumn
    by_cases h3 : (prepareTimeSeriesData data dc col).length < 3
    · rw [if_pos h3]
    · rw [if_neg h3]
      have hn2 : 2 ≤ (prepareTimeSeriesData data dc col).length := by omega
      have hD : regDenom (rangeQ (prepareTimeSeriesData data dc col).length) ≠ 0 :=
        ne_of_gt (regDenom_rangeQ_pos' hn2)
      have hs0 : slopeFormula
          (rangeQ (prepareTimeSeriesData data dc col).length)
          ((prepareTimeSeriesData data dc col).map (·.value)) = 0 :=
        slopeFormula_eq_zero_of_ssTot_zero hylen hTot0
      have hfit := fit_eq_of_regDenom
        (y := (prepareTimeSeriesData data dc col).map (·.value)) hD
      rw [if_neg ?hguard]
      case hguard =>
        simp only [calculateTrend, hfit, hs0, jqAbs, jqGtQ, Option.map_some, abs_zero]
        norm_num
  · -- prediction: R² is NaN, failing the `> 0.3` gate
    unfold predictionInsightsForColumn
    by_cases h5 : (prepareTimeSeriesData data dc col).length < 5
    · rw [if_pos h5]
    · rw [if_neg h5]
      have hn2 : 2 ≤ (prepareTimeSeriesData data dc col).length := by omega
      have hD : regDenom (rangeQ (prepareTimeSeriesData data dc col).length) ≠ 0 :=
        ne_of_gt (regDenom_rangeQ_pos' hn2)
      have hscore := score_eq_of_regDenom
        (y := (prepareTimeSeriesData data dc col).map (·.value)) hD
      rw [if_neg ?hguard]
      case hguard =>
        rw [hscore, if_pos hTot0]
        simp [jqGtQ]

/-- Witness for **C3**: the segmentation insight of the constant ten-row
dataset survives into the final output, and a constant five-value column
(degenerate variance) yields no trend and no prediction insight. -/
theorem claim3_witness :
    segInsightW ∈ generateInsights kmW dataConst10 ∧
    trendInsightsForColumn dataConst5 "c" "c" = [] ∧
    predictionInsightsForColumn dataConst5 "c" "c" = [] := by
  refine ⟨(claim3_local_fault_isolation kmW dataConst10).2.2.2.1 segInsightW
    (by decide), ?_, ?_⟩
  · exact ((claim3_local_fault_isolation kmW dataConst5).2.2.2.2.2 "c" "c" 7
      (by decide)).1
  · exact ((claim3_local_fault_isolation kmW dataConst5).2.2.2.2.2 "c" "c" 7
      (by decide)).2

/-- **C9** — The segmentation analyzer produces no insight when there are
fewer than two numeric columns, fewer than ten records, or fewer than six
feature points; otherwise it emits exactly one segment insight, over the
first two numeric columns, with `k = min(3, ⌊pointCount/3⌋)` clusters and
confidence exactly 75 (the point list always has one point per record,
since the `|| 0` coercion leaves no NaN to drop). -/
theorem claim9_segmentation (km : KMeansFn) (data : Dataset) :
    ((getNumericColumns data).length < 2 ∨ data.length < 10 →
      performSegmentation km data = []) ∧
    (∀ c1 c2 rest, getNumericColumns data = c1 :: c2 :: rest →
      (segPoints data c1 c2).length = data.length) ∧
    (∀ c1 c2 rest, getNumericColumns data = c1 :: c2 :: rest →
      10 ≤ data.length →
      ∃ segs, performSegmentation km data =
        [{ type := .segment
           title := "Data Segmented into " ++ toString (min 3 (data.length / 3)) ++
             " Groups"
           confidence := some (RQ.ofQ 75)
           data := .segmentD [c1, c2] segs (min 3 (data.length / 3)) }]) := by
  have hplen : ∀ c1 c2, (segPoints data c1 c2).length = data.length := by
    intro c1 c2
    unfold segPoints
    exact List.length_map _ _
  refine ⟨?_, fun c1 c2 rest _ => hplen c1 c2, ?_⟩
  · intro hguard
    unfold performSegmentation
    rw [if_pos hguard]
  · intro c1 c2 rest hcols h10
    unfold performSegmentation
    rw [if_neg ?hg]
    case hg =>
      push_neg
      rw [hcols]
      constructor
      · simp only [List.length_cons]
        omega
      · omega
    simp only [hcols]
    rw [if_neg ?h6]
    case h6 =>
      rw [hplen c1 c2]
      omega
    rw [hplen c1 c2]
    exact ⟨_, rfl⟩

/-- Witness for **C9**: on the constant ten-row dataset (numeric columns
`a`, `b`), exactly one segmentation insight is emitted, with `k = 3` and
confidence 75. -/
theorem claim9_witness :
    (segPoints dataConst10 "a" "b").length = dataConst10.length ∧
    ∃ segs, performSegmentation kmW dataConst10 =
      [{ type := .segment
         title := "Data Segmented into " ++
           toString (min 3 (dataConst10.length / 3)) ++ " Groups"
         confidence := some (RQ.ofQ 75)
         data := .segmentD ["a", "b"] segs (min 3 (dataConst10.length / 3)) }] := by
  have h := claim9_segmentation kmW dataConst10
  exact ⟨h.2.1 "a" "b" [] (by decide), h.2.2 "a" "b" [] (by decide) (by decide)⟩

lemma popVariance_nonneg (x : List ℚ) : 0 ≤ popVariance x := by
  unfold popVariance
  apply div_nonneg (listSum_map_sq_nonneg _ _)
  positivity

/-- The anomaly comparison `|value − mean| > 2·stdDev` at real level. -/
lemma anomaly_cmp_real {value mean variance : ℚ} :
    RQ.ltB (⟨2, variance⟩ : RQ) (RQ.ofQ |value - mean|) = true ↔
      2 * Real.sqrt (variance : ℝ) < |(value : ℝ) - (mean : ℝ)| := by
  rw [RQ.ltB_iff]
  have h1 : (RQ.mk 2 variance).val = 2 * Real.sqrt (variance : ℝ) := by
    unfold RQ.val
    norm_num
  have h2 : (RQ.ofQ |value - mean|).val = |(value : ℝ) - (mean : ℝ)| := by
    rw [RQ.ofQ_val]
    push_cast
    ring_nf
  rw [h1, h2]

/-- The real comparison is equivalent to the squared rational test. -/
lemma anomaly_cmp_sq {value mean variance : ℚ} (hvar : 0 ≤ variance) :
    (2 * Real.sqrt (variance : ℝ) < |(value : ℝ) - (mean : ℝ)|) ↔
      4 * variance < (value - mean) ^ 2 := by
  have hvr : (0 : ℝ) ≤ (variance : ℝ) := by exact_mod_cast hvar
  rw [← pow_lt_pow_iff_left₀ (a := 2 * Real.sqrt (variance : ℝ))
    (by positivity) (abs_nonneg _) (two_ne_zero)]
  rw [mul_pow, Real.sq_sqrt hvr, sq_abs]
  constructor
  · intro h
    have : ((4 * variance : ℚ) : ℝ) < (((value - mean) ^ 2 : ℚ) : ℝ) := by
      push_cast
      push_cast at h
      linarith
    exact_mod_cast this
  · intro h
    have : ((4 * variance : ℚ) : ℝ) < (((value - mean) ^ 2 : ℚ) : ℝ) := by
      exact_mod_cast h
    push_cast at this
    linarith

/-- **C7** — For a numeric column, the anomaly analyzer skips the column
when it has fewer than 10 parseable values; otherwise it flags exactly the
records whose parsed value deviates from the mean by more than
`2·stdDev = 2·√(popVariance)` (equivalently, whose squared deviation
exceeds `4·popVariance`), emits an insight iff at least one record is
flagged, with confidence `min((count/total)·500, 90)`, carrying the mean
and the threshold in its data payload. -/
theorem claim7_anomaly_characterization (data : Dataset) (col : String)
    (values : List ℚ) (mean variance : ℚ)
    (hcol : col ∈ getNumericColumns data)
    (hv : values = parsedValues data col)
    (hm : mean = ssMean values) (hvar : variance = popVariance values) :
    (values.length < 10 → anomalyInsightsForColumn data col = []) ∧
    (10 ≤ values.length →
      (∀ row ∈ data, row ∈ anomalousRows data col mean variance ↔
        ∃ value, jsParseFloat (getVal row col) = some value ∧
          2 * Real.sqrt (variance : ℝ) < |(value : ℝ) - (mean : ℝ)|) ∧
      (anomalousRows data col mean variance = data.filter fun row =>
        match jsParseFloat (getVal row col) with
        | some value => decide (4 * variance < (value - mean) ^ 2)
        | none => false) ∧
      (anomalyInsightsForColumn data col ≠ [] ↔
        anomalousRows data col mean variance ≠ []) ∧
      (∀ i ∈ anomalyInsightsForColumn data col,
        i.type = .anomaly ∧
        i.confidence = some (RQ.ofQ (min
          (((anomalousRows data col mean variance).length : ℚ) /
            (values.length : ℚ) * 500) 90)) ∧
        i.data = .anomalyD col
          ((anomalousRows data col mean variance).map fun row =>
            (getVal row col, row)) mean ⟨2, variance⟩)) := by
  have hvnn : 0 ≤ variance := hvar ▸ popVariance_nonneg values
  constructor
  · intro h10
    unfold anomalyInsightsForColumn
    rw [← hv, if_pos h10]
  · intro h10
    refine ⟨?_, ?_, ?_, ?_⟩
    · intro row hrow
      unfold anomalousRows
      rw [List.mem_filter]
      constructor
      · rintro ⟨-, hpred⟩
        cases hp : jsParseFloat (getVal row col) with
        | none => rw [hp] at hpred; exact absurd hpred (by simp)
        | some value =>
          rw [hp] at hpred
          exact ⟨value, rfl, anomaly_cmp_real.mp hpred⟩
      · rintro ⟨value, hp, hlt⟩
        refine ⟨hrow, ?_⟩
        rw [hp]
        exact anomaly_cmp_real.mpr hlt
    · unfold anomalousRows
      apply List.filter_congr
      intro row hrow
      cases hp : jsParseFloat (getVal row col) with
      | none => simp
      | some value =>
        have hiff : (RQ.ltB ⟨2, variance⟩ (RQ.ofQ |value - mean|) = true) ↔
            (4 * variance < (value - mean) ^ 2) :=
          anomaly_cmp_real.trans (anomaly_cmp_sq hvnn)
        change RQ.ltB ⟨2, variance⟩ (RQ.ofQ |value - mean|) =
          decide (4 * variance < (value - mean) ^ 2)
        rw [← Bool.decide_eq_true (b := RQ.ltB ⟨2, variance⟩ (RQ.ofQ |value - mean|))]
        exact decide_eq_decide.mpr hiff
    · unfold anomalyInsightsForColumn
      rw [← hv, if_neg (not_lt.mpr h10), ← hm, ← hvar]
      by_cases hpos : (anomalousRows data col mean variance).length > 0
      · rw [if_pos hpos]
        have hne : anomalousRows data col mean variance ≠ [] :=
          List.ne_nil_of_length_pos hpos
        simp [hne]
      · rw [if_neg hpos]
        have : anomalousRows data col mean variance = [] := by
          rw [← List.length_eq_zero]
          omega
        simp [this]
    · intro i hi
      unfold anomalyInsightsForColumn at hi
      rw [← hv, if_neg (not_lt.mpr h10), ← hm, ← hvar] at hi
      by_cases hpos : (anomalousRows data col mean variance).length > 0
      · rw [if_pos hpos] at hi
        rw [List.mem_singleton] at hi
        subst hi
        exact ⟨rfl, rfl, rfl⟩
      · rw [if_neg hpos] at hi
        exact absurd hi (by simp)

/-- Witness for **C7**: nine ones and one hundred — the outlier is
flagged, one anomaly insight is emitted with confidence
`min((1/10)·500, 90) = 50`. -/
theorem claim7_witness :
    anomalyInsightsForColumn dataAnom "v" ≠ [] ∧
    ∀ i ∈ anomalyInsightsForColumn dataAnom "v",
      i.confidence = some (RQ.ofQ (min
        (((anomalousRows dataAnom "v" (ssMean (parsedValues dataAnom "v"))
            (popVariance (parsedValues dataAnom "v"))).length : ℚ) /
          ((parsedValues dataAnom "v").length : ℚ) * 500) 90)) := by
  have h := claim7_anomaly_characterization dataAnom "v"
    (parsedValues dataAnom "v") (ssMean (parsedValues dataAnom "v"))
    (popVariance (parsedValues dataAnom "v"))
    (by decide) rfl rfl rfl
  have h10 : 10 ≤ (parsedValues dataAnom "v").length := by decide
  obtain ⟨-, hmain⟩ := h
  obtain ⟨-, -, hiff, hins⟩ := hmain h10
  refine ⟨hiff.mpr (by decide), fun i hi => (hins i hi).2.1⟩

lemma prepareTimeSeriesData_length_le (data : Dataset) (dc col : String) :
    (prepareTimeSeriesData data dc col).length ≤ data.length := by
  unfold prepareTimeSeriesData
  rw [(jsStableSort_perm _ _).length_eq]
  exact List.length_filterMap_le _ _

/-- **C5** — Given a date column and a numeric column, the trend analyzer
emits an insight iff the filtered chronologically sorted series has at
least 3 points and the closed-form least-squares slope (over indices
`0,1,2,…`) exceeds `0.01` in magnitude; the fit is exactly the closed-form
slope/intercept, the confidence is `min(R²·100, 95)` and the direction is
`Upward` iff the slope is positive. -/
theorem claim5_trend_characterization (data : Dataset) (dc col : String)
    (ts : List TSPoint) (y : List ℚ) (n : ℕ)
    (hdc : getDateColumn data = some dc)
    (hcol : col ∈ getNumericColumns data)
    (hts : ts = prepareTimeSeriesData data dc col)
    (hy : y = ts.map (·.value)) (hn : n = ts.length) :
    (trendInsightsForColumn data dc col ≠ [] ↔
      3 ≤ n ∧ 1 / 100 < |slopeFormula (rangeQ n) y|) ∧
    (3 ≤ n → SimpleLinearRegression.fit (rangeQ n) y =
      { slope := some (slopeFormula (rangeQ n) y),
        intercept := some (interceptFormula (rangeQ n) y) }) ∧
    (∀ i ∈ trendInsightsForColumn data dc col,
      i.type = .trend ∧
      (0 < slopeFormula (rangeQ n) y → i.title = "Upward Trend in " ++ col) ∧
      (slopeFormula (rangeQ n) y ≤ 0 → i.title = "Downward Trend in " ++ col) ∧
      ∃ r, (SimpleLinearRegression.fit (rangeQ n) y).score (rangeQ n) y = some r ∧
        i.confidence = some (RQ.ofQ (min (r * 100) 95)) ∧
        i.data = .trendD col (some (slopeFormula (rangeQ n) y)) (some r) ts) ∧
    identifyTrends data =
      (getNumericColumns data).flatMap (trendInsightsForColumn data dc) := by
  have hstruct : identifyTrends data =
      (getNumericColumns data).flatMap (trendInsightsForColumn data dc) := by
    unfold identifyTrends
    rw [hdc]
    have hne : ¬ (getNumericColumns data).isEmpty := by
      rw [List.isEmpty_iff]
      exact List.ne_nil_of_mem hcol
    simp only [hne, if_false, Bool.false_eq_true]
  have hbody : trendInsightsForColumn data dc col =
      if ts.length < 3 then [] else
      if jqGtQ (jqAbs (calculateTrend ts).slope) (1 / 100) then
        [{ type := .trend
           title := (calculateTrend ts).direction ++ " Trend in " ++ col
           confidence := (jqMinQ ((calculateTrend ts).rSquared.map (· * 100)) 95).map
             RQ.ofQ
           data := .trendD col (calculateTrend ts).slope (calculateTrend ts).rSquared
             ts }] else [] := by
    rw [hts]
    rfl
  by_cases h3 : ts.length < 3
  · rw [if_pos h3] at hbody
    refine ⟨?_, fun h => absurd h (by omega), ?_, hstruct⟩
    · rw [hbody]
      simp only [ne_eq, not_true_eq_false, false_iff, not_and]
      intro h
      omega
    · rw [hbody]
      simp
  · rw [if_neg h3] at hbody
    have h2 : (2 : ℕ) ≤ ts.length := by omega
    have hD : regDenom (rangeQ ts.length) ≠ 0 := ne_of_gt (regDenom_rangeQ_pos' h2)
    have hfit0 := fit_eq_of_regDenom (y := ts.map (·.value)) hD
    have hfit : SimpleLinearRegression.fit (rangeQ n) y =
        { slope := some (slopeFormula (rangeQ n) y)
          intercept := some (interceptFormula (rangeQ n) y) } := by
      rw [hy, hn]
      exact hfit0
    have hlen : (ts.map (·.value)).length = ts.length := List.length_map _ _
    have hslope : (calculateTrend ts).slope =
        some (slopeFormula (rangeQ ts.length) (ts.map (·.value))) := by
      simp only [calculateTrend, hfit0]
    have hguard : (jqGtQ (jqAbs (calculateTrend ts).slope) (1 / 100)) =
        decide ((1 : ℚ) / 100 <
          |slopeFormula (rangeQ ts.length) (ts.map (·.value))|) := by
      rw [hslope]
      rfl
    have hsfold : slopeFormula (rangeQ ts.length) (ts.map (·.value)) =
        slopeFormula (rangeQ n) y := by rw [hy, hn]
    rw [hguard, hsfold] at hbody
    by_cases hemit : (1 : ℚ) / 100 < |slopeFormula (rangeQ n) y|
    · rw [if_pos (decide_eq_true hemit)] at hbody
      have hsne : slopeFormula (rangeQ n) y ≠ 0 := by
        intro h0
        rw [h0] at hemit
        norm_num at hemit
      have hTot : ssTot y ≠ 0 := by
        intro hTot0
        apply hsne
        have hT' : ssTot (ts.map (·.value)) = 0 := by rw [← hy]; exact hTot0
        have hz := slopeFormula_eq_zero_of_ssTot_zero (n := ts.length) hlen hT'
        rw [hy, hn]
        exact hz
      have hscore0 := score_eq_of_regDenom (y := ts.map (·.value)) hD
      have hTot' : ssTot (ts.map (·.value)) ≠ 0 := by
        rw [← hy]
        exact hTot
      rw [if_neg hTot'] at hscore0
      have hscore : (SimpleLinearRegression.fit (rangeQ n) y).score (rangeQ n) y =
          some (1 - ssRes (rangeQ n) y / ssTot y) := by
        rw [hy, hn]
        exact hscore0
      have hr2 : (calculateTrend ts).rSquared =
          some (1 - ssRes (rangeQ n) y / ssTot y) := by
        simp only [calculateTrend]
        rw [hscore0, hy, hn]
      refine ⟨?_, fun _ => hfit, ?_, hstruct⟩
      · rw [hbody]
        exact ⟨fun _ => ⟨by omega, hemit⟩, fun _ => by simp⟩
      · intro i hi
        rw [hbody, List.mem_singleton] at hi
        subst hi
        have hsl : (calculateTrend ts).slope = some (slopeFormula (rangeQ n) y) := by
          rw [hslope, hsfold]
        have hdir : (calculateTrend ts).direction =
            if jqGtQ (some (slopeFormula (rangeQ n) y)) 0 then "Upward"
            else "Downward" := by
          simp only [calculateTrend, hfit0, hsfold]
        refine ⟨rfl, ?_, ?_, ?_⟩
        · intro hpos
          rw [hdir, show jqGtQ (some (slopeFormula (rangeQ n) y)) 0 =
            decide (0 < slopeFormula (rangeQ n) y) from rfl,
            decide_eq_true (by exact hpos)]
          rfl
        · intro hnonpos
          rw [hdir, show jqGtQ (some (slopeFormula (rangeQ n) y)) 0 =
            decide (0 < slopeFormula (rangeQ n) y) from rfl,
            decide_eq_false (by exact not_lt.mpr hnonpos)]
          rfl
        · exact ⟨1 - ssRes (rangeQ n) y / ssTot y, hscore,
            by rw [hr2]; rfl,
            by rw [hsl, hr2]⟩
    · rw [if_neg (by simpa using hemit)] at hbody
      refine ⟨?_, fun _ => hfit, ?_, hstruct⟩
      · rw [hbody]
        simp only [ne_eq, not_true_eq_false, false_iff, not_and]
        intro
        exact hemit
      · rw [hbody]
        simp

/-- Witness for **C5**: a three-row strictly increasing column (serving as
both the date and the value column) emits a trend insight. -/
theorem claim5_witness :
    getDateColumn dataTrend = some "d" ∧
    trendInsightsForColumn dataTrend "d" "d" ≠ [] := by
  refine ⟨by decide, ?_⟩
  have h := claim5_trend_characterization dataTrend "d" "d"
    (prepareTimeSeriesData dataTrend "d" "d")
    ((prepareTimeSeriesData dataTrend "d" "d").map (·.value))
    (prepareTimeSeriesData dataTrend "d" "d").length
    (by decide) (by decide) rfl rfl rfl
  exact h.1.mpr (by decide)

/-- **C8** — Given a date column and a numeric column, the prediction
analyzer requires at least 5 series points (which subsumes the
`data.length ≥ 5` gate), fits the same regression as the trend analyzer,
predicts the value at index `n` (one past the last observed index), and
emits iff `R² > 0.3` — independently of any slope threshold — with
confidence `min(R²·100, 85)`. -/
theorem claim8_prediction_characterization (data : Dataset) (dc col : String)
    (ts : List TSPoint) (y : List ℚ) (n : ℕ)
    (hdc : getDateColumn data = some dc)
    (hcol : col ∈ getNumericColumns data)
    (hts : ts = prepareTimeSeriesData data dc col)
    (hy : y = ts.map (·.value)) (hn : n = ts.length) :
    (5 ≤ n → 5 ≤ data.length) ∧
    (predictionInsightsForColumn data dc col ≠ [] ↔
      5 ≤ n ∧ ∃ r, (SimpleLinearRegression.fit (rangeQ n) y).score (rangeQ n) y =
        some r ∧ 3 / 10 < r) ∧
    (∀ i ∈ predictionInsightsForColumn data dc col,
      i.type = .prediction ∧
      ∃ r, (SimpleLinearRegression.fit (rangeQ n) y).score (rangeQ n) y = some r ∧
        3 / 10 < r ∧
        i.confidence = some (RQ.ofQ (min (r * 100) 85)) ∧
        i.data = .predD col
          (some (slopeFormula (rangeQ n) y * n + interceptFormula (rangeQ n) y))
          (some r) (some (slopeFormula (rangeQ n) y))
          (some (interceptFormula (rangeQ n) y))) ∧
    (generatePredictions data =
      if 5 ≤ data.length then
        (getNumericColumns data).flatMap (predictionInsightsForColumn data dc)
      else []) := by
  have hgate : 5 ≤ n → 5 ≤ data.length := by
    intro h5
    have := prepareTimeSeriesData_length_le data dc col
    rw [← hts] at this
    omega
  have hstruct : generatePredictions data =
      if 5 ≤ data.length then
        (getNumericColumns data).flatMap (predictionInsightsForColumn data dc)
      else [] := by
    unfold generatePredictions
    rw [hdc]
    show (if (getNumericColumns data).isEmpty = true ∨ data.length < 5 then []
      else (getNumericColumns data).flatMap (predictionInsightsForColumn data dc)) = _
    have hne : ¬ (getNumericColumns data).isEmpty := by
      rw [List.isEmpty_iff]
      exact List.ne_nil_of_mem hcol
    by_cases h5d : data.length < 5
    · rw [if_pos (Or.inr h5d), if_neg (by omega)]
    · rw [if_neg (by
        rintro (h | h)
        · exact hne h
        · omega), if_pos (by omega)]
  have hbody : predictionInsightsForColumn data dc col =
      if ts.length < 5 then [] else
      if jqGtQ ((SimpleLinearRegression.fit (rangeQ ts.length)
          (ts.map (·.value))).score (rangeQ ts.length) (ts.map (·.value))) (3 / 10) then
        [{ type := .prediction
           title := "Predicted Next Value for " ++ col
           confidence := (jqMinQ (((SimpleLinearRegression.fit (rangeQ ts.length)
             (ts.map (·.value))).score (rangeQ ts.length) (ts.map (·.value))).map
               (· * 100)) 85).map RQ.ofQ
           data := .predD col
             ((SimpleLinearRegression.fit (rangeQ ts.length)
               (ts.map (·.value))).predict ts.length)
             ((SimpleLinearRegression.fit (rangeQ ts.length)
               (ts.map (·.value))).score (rangeQ ts.length) (ts.map (·.value)))
             (SimpleLinearRegression.fit (rangeQ ts.length) (ts.map (·.value))).slope
             (SimpleLinearRegression.fit (rangeQ ts.length)
               (ts.map (·.value))).intercept }] else [] := by
    rw [hts]
    rfl
  have hfold : (SimpleLinearRegression.fit (rangeQ ts.length)
      (ts.map (·.value))).score (rangeQ ts.length) (ts.map (·.value)) =
      (SimpleLinearRegression.fit (rangeQ n) y).score (rangeQ n) y := by
    rw [hy, hn]
  by_cases h5 : ts.length < 5
  · rw [if_pos h5] at hbody
    refine ⟨hgate, ?_, ?_, hstruct⟩
    · rw [hbody]
      simp only [ne_eq, not_true_eq_false, false_iff, not_and]
      intro h
      omega
    · rw [hbody]
      simp
  · rw [if_neg h5, hfold] at hbody
    have h2 : (2 : ℕ) ≤ ts.length := by omega
    have hD : regDenom (rangeQ ts.length) ≠ 0 := ne_of_gt (regDenom_rangeQ_pos' h2)
    have hfit0 := fit_eq_of_regDenom (y := ts.map (·.value)) hD
    cases hsc : (SimpleLinearRegression.fit (rangeQ n) y).score (rangeQ n) y with
    | none =>
      rw [hsc] at hbody
      rw [show jqGtQ (none : Option ℚ) (3 / 10) = false from rfl] at hbody
      rw [if_neg (by simp)] at hbody
      refine ⟨hgate, ?_, ?_, hstruct⟩
      · rw [hbody]
        simp
      · rw [hbody]
        simp
    | some r =>
      rw [hsc] at hbody
      rw [show jqGtQ (some r) (3 / 10) = decide ((3 : ℚ) / 10 < r) from rfl] at hbody
      by_cases hr : (3 : ℚ) / 10 < r
      · rw [if_pos (decide_eq_true hr)] at hbody
        refine ⟨hgate, ?_, ?_, hstruct⟩
        · rw [hbody]
          exact ⟨fun _ => ⟨by omega, r, rfl, hr⟩, fun _ => by simp⟩
        · intro i hi
          rw [hbody, List.mem_singleton] at hi
          subst hi
          have hpred : (SimpleLinearRegression.fit (rangeQ ts.length)
              (ts.map (·.value))).predict ts.length =
              some (slopeFormula (rangeQ n) y * n + interceptFormula (rangeQ n) y) := by
            rw [hfit0]
            rw [hy, hn]
            rfl
          have hsl : (SimpleLinearRegression.fit (rangeQ ts.length)
              (ts.map (·.value))).slope = some (slopeFormula (rangeQ n) y) := by
            rw [hfit0, hy, hn]
          have hic : (SimpleLinearRegression.fit (rangeQ ts.length)
              (ts.map (·.value))).intercept =
              some (interceptFormula (rangeQ n) y) := by
            rw [hfit0, hy, hn]
          refine ⟨rfl, r, rfl, hr, by rfl, ?_⟩
          show InsightData.predD col ((SimpleLinearRegression.fit (rangeQ ts.length)
              (ts.map (·.value))).predict ts.length) (some r)
              (SimpleLinearRegression.fit (rangeQ ts.length)
                (ts.map (·.value))).slope
              (SimpleLinearRegression.fit (rangeQ ts.length)
                (ts.map (·.value))).intercept = _
          rw [hpred, hsl, hic]
      · rw [if_neg (by simpa using hr)] at hbody
        refine ⟨hgate, ?_, ?_, hstruct⟩
        · rw [hbody]
          simp only [ne_eq, not_true_eq_false, false_iff, not_and]
          rintro - ⟨r2, hr2, hlt⟩
          injection hr2 with h
          exact hr (h ▸ hlt)
        · rw [hbody]
          simp

/-- Witness for **C8**: five strictly increasing values give a perfect fit
(`R² = 1 > 0.3`), so a prediction insight is emitted. -/
theorem claim8_witness :
    getDateColumn dataPred = some "d" ∧
    predictionInsightsForColumn dataPred "d" "d" ≠ [] := by
  refine ⟨by decide, ?_⟩
  have h := claim8_prediction_characterization dataPred "d" "d"
    (prepareTimeSeriesData dataPred "d" "d")
    ((prepareTimeSeriesData dataPred "d" "d").map (·.value))
    (prepareTimeSeriesData dataPred "d" "d").length
    (by decide) (by decide) rfl rfl rfl
  refine h.2.1.mpr ⟨by decide, 1, by decide, by norm_num⟩

/-- `Math.abs(r) > q` for a non-NaN correlation, read off in the reals. -/
lemma rqAbsGtQ_some_iff (z : RQ) (q : ℚ) :
    rqAbsGtQ (some z) q = true ↔ (q : ℝ) < |z.val| := by
  unfold rqAbsGtQ
  rw [RQ.ltB_iff, RQ.ofQ_val, RQ.abs_val]

/-- `r > 0` for a non-NaN correlation, read off in the reals. -/
lemma rqGtZero_some_iff (z : RQ) : rqGtZero (some z) = true ↔ 0 < z.val := by
  unfold rqGtZero
  rw [RQ.ltB_iff, RQ.ofQ_val]
  norm_num

/-- **C6**, counterexample — on `dataMisaligned` the two per-column filtered
lists have equal length `4 ≥ 3`, the Pearson correlation over the rows where
**both** values parse (the claim/spec reading) has `|r| > 0.5`, yet the code,
which pairs the two independently filtered lists positionally, computes a
correlation with `|r| ≤ 0.5` and emits nothing. -/
theorem claim6_counterexample :
    getNumericColumns dataMisaligned = ["a", "b"] ∧
    (parsedValues dataMisaligned "a").length =
      (parsedValues dataMisaligned "b").length ∧
    3 ≤ (parsedValues dataMisaligned "a").length ∧
    rqAbsGtQ (specBothRowsCorrelation dataMisaligned "a" "b") (1 / 2) = true ∧
    rqAbsGtQ (sampleCorrelation (parsedValues dataMisaligned "a")
      (parsedValues dataMisaligned "b")) (1 / 2) = false ∧
    findCorrelations dataMisaligned = [] :=
  ⟨by decide, by decide, by decide, by decide, by decide, by decide⟩

/-- **C6**, amended — the Correlation Analyzer computes `r` over the two
**independently filtered** per-column value lists paired positionally (not
over the rows where both values parse); with that reading the rest of the
claim holds: the pair is skipped when the filtered lengths differ or are
`< 3`, an insight is emitted iff `|r| > 0.5`, with confidence `|r|·100` and
strength `"strong"` exactly when `|r| > 0.8`. -/
theorem claim6_amended (data : Dataset) (col1 col2 : String) (v1 v2 : List ℚ)
    (hv1 : v1 = parsedValues data col1) (hv2 : v2 = parsedValues data col2) :
    (corrInsightsForPair data col1 col2 ≠ [] ↔
      v1.length = v2.length ∧ 3 ≤ v1.length ∧
      ∃ z, sampleCorrelation v1 v2 = some z ∧ (1 / 2 : ℝ) < |z.val|) ∧
    (∀ i ∈ corrInsightsForPair data col1 col2,
      i.type = .correlation ∧
      ∃ z, sampleCorrelation v1 v2 = some z ∧ (1 / 2 : ℝ) < |z.val| ∧
        i.confidence = some (RQ.scale 100 z.abs) ∧
        i.data = .corrD col1 col2 (some z)
          (if (4 / 5 : ℝ) < |z.val| then "strong" else "moderate")
          (if 0 < z.val then "positive" else "negative")) ∧
    (findCorrelations data =
      if (getNumericColumns data).length < 2 then []
      else (pairsAfter (getNumericColumns data)).flatMap
        fun p => corrInsightsForPair data p.1 p.2) := by
  have hbody : corrInsightsForPair data col1 col2 =
      if v1.length ≠ v2.length ∨ v1.length < 3 then []
      else if rqAbsGtQ (sampleCorrelation v1 v2) (1 / 2) then
        [{ type := .correlation
           title := capFirst (if rqAbsGtQ (sampleCorrelation v1 v2) (4 / 5) then
               "strong" else "moderate") ++ " " ++
             (if rqGtZero (sampleCorrelation v1 v2) then "positive"
               else "negative") ++ " correlation"
           confidence := (sampleCorrelation v1 v2).map fun z => RQ.scale 100 z.abs
           data := .corrD col1 col2 (sampleCorrelation v1 v2)
             (if rqAbsGtQ (sampleCorrelation v1 v2) (4 / 5) then "strong"
               else "moderate")
             (if rqGtZero (sampleCorrelation v1 v2) then "positive"
               else "negative") }]
      else [] := by
    rw [hv1, hv2]
    rfl
  by_cases hg : v1.length ≠ v2.length ∨ v1.length < 3
  · rw [if_pos hg] at hbody
    refine ⟨?_, ?_, rfl⟩
    · rw [hbody]
      apply iff_of_false (by simp)
      rintro ⟨h1, h2, -⟩
      rcases hg with h | h
      · exact h h1
      · omega
    · rw [hbody]
      simp
  · rw [if_neg hg] at hbody
    push_neg at hg
    cases hsc : sampleCorrelation v1 v2 with
    | none =>
      rw [hsc] at hbody
      rw [show rqAbsGtQ (none : Option RQ) (1 / 2) = false from rfl] at hbody
      rw [if_neg (by simp)] at hbody
      refine ⟨?_, ?_, rfl⟩
      · rw [hbody]
        apply iff_of_false (by simp)
        rintro ⟨-, -, z, hz, -⟩
        exact Option.noConfusion hz
      · rw [hbody]
        simp
    | some z =>
      rw [hsc] at hbody
      by_cases habs : rqAbsGtQ (some z) (1 / 2) = true
      · rw [if_pos habs] at hbody
        have hgt : (1 / 2 : ℝ) < |z.val| := by
          have := (rqAbsGtQ_some_iff z (1 / 2)).mp habs
          simpa using this
        refine ⟨?_, ?_, rfl⟩
        · rw [hbody]
          exact iff_of_true (by simp) ⟨hg.1, by omega, z, rfl, hgt⟩
        · intro i hi
          rw [hbody, List.mem_singleton] at hi
          subst hi
          have hs : (if rqAbsGtQ (some z) (4 / 5) = true then "strong"
              else "moderate") =
              (if (4 / 5 : ℝ) < |z.val| then "strong" else "moderate") := by
            by_cases h45 : (4 / 5 : ℝ) < |z.val|
            · rw [if_pos ((rqAbsGtQ_some_iff z (4 / 5)).mpr (by simpa using h45)),
                if_pos h45]
            · rw [if_neg (fun hc => h45 (by
                simpa using (rqAbsGtQ_some_iff z (4 / 5)).mp hc)), if_neg h45]
          have hd : (if rqGtZero (some z) = true then "positive"
              else "negative") =
              (if 0 < z.val then "positive" else "negative") := by
            by_cases h0 : 0 < z.val
            · rw [if_pos ((rqGtZero_some_iff z).mpr h0), if_pos h0]
            · rw [if_neg (fun hc => h0 ((rqGtZero_some_iff z).mp hc)), if_neg h0]
          refine ⟨rfl, z, rfl, hgt, rfl, ?_⟩
          show InsightData.corrD col1 col2 (some z)
              (if rqAbsGtQ (some z) (4 / 5) then "strong" else "moderate")
              (if rqGtZero (some z) then "positive" else "negative") = _
          rw [hs, hd]
      · rw [if_neg habs] at hbody
        refine ⟨?_, ?_, rfl⟩
        · rw [hbody]
          apply iff_of_false (by simp)
          rintro ⟨-, -, z2, hz2, hgt2⟩
          injection hz2 with h
          subst h
          exact habs ((rqAbsGtQ_some_iff z (1 / 2)).mpr (by simpa using hgt2))
        · rw [hbody]
          simp

/-- Witness for **C6** (amended): two identical three-value columns have
`r = 1`, so an insight is emitted. -/
theorem claim6_amended_witness :
    corrInsightsForPair dataCorr "a" "b" ≠ [] := by
  have h := claim6_amended dataCorr "a" "b"
    (parsedValues dataCorr "a") (parsedValues dataCorr "b") rfl rfl
  refine h.1.mpr ⟨by decide, by decide, ⟨1, 1⟩, by decide, ?_⟩
  show (1 / 2 : ℝ) < |(RQ.mk 1 1).val|
  have hv : (RQ.mk 1 1).val = 1 := by
    unfold RQ.val
    rw [show ((1 : ℚ) : ℝ) = 1 from by norm_num, Real.sqrt_one]
    ring
  rw [hv]
  norm_num

/-- **C10**, counterexample — `8640000000000001` is a truthy finite number,
so its column is classified numeric, yet `new Date(8.64e15 + 1)` is invalid
(outside the ECMAScript time range), so the value fails the date test and
the one-column dataset has no date column at all. -/
theorem claim10_counterexample :
    getNumericColumns dataBigNum = ["t"] ∧
    truthy (Value.num 8640000000000001) = true ∧
    isDateValue (Value.num 8640000000000001) = false ∧
    getDateColumn dataBigNum = none :=
  ⟨by decide, by decide, by decide, by decide⟩

/-- **C10**, amended — a numeric value is date-like iff it is truthy **and**
within the ECMAScript `Date` range (`|v| ≤ 8.64e15`); falsy first-record
values (`0`, `""`) are never date-like; a column whose first-record value is
a number is always classified numeric; the date column is the first
schema-order key whose first-record value is date-like; and when a date
column exists the Trend and Prediction analyzers iterate over **every**
numeric column — including the date column itself when it is numeric — as
the value column. -/
theorem claim10_amended (data : Dataset) (dc : String)
    (hdc : getDateColumn data = some dc) :
    (∀ q : ℚ, isDateValue (Value.num q) = true ↔
      q ≠ 0 ∧ |q| ≤ 8640000000000000) ∧
    (isDateValue (Value.num 0) = false ∧ isDateValue (Value.str "") = false) ∧
    (∀ row rest key, key ∈ recKeys row →
      (∃ q : ℚ, getVal row key = Value.num q) →
      key ∈ getNumericColumns (row :: rest)) ∧
    (∀ row rest, getDateColumn (row :: rest) =
      (recKeys row).find? fun key => isDateValue (getVal row key)) ∧
    (¬ (getNumericColumns data).isEmpty →
      identifyTrends data =
        (getNumericColumns data).flatMap (trendInsightsForColumn data dc)) ∧
    (¬ (getNumericColumns data).isEmpty → 5 ≤ data.length →
      generatePredictions data =
        (getNumericColumns data).flatMap (predictionInsightsForColumn data dc)) := by
  refine ⟨?_, ⟨by decide, by decide⟩, ?_, ?_, ?_, ?_⟩
  · intro q
    show (truthy (Value.num q) && (jsDateGetTime (Value.num q)).isSome) = true ↔ _
    show ((decide ¬(q = 0)) &&
      (if |q| ≤ 8640000000000000 then some (ratTrunc q) else none).isSome) = true ↔ _
    rw [Bool.and_eq_true, decide_eq_true_eq]
    constructor
    · rintro ⟨h1, h2⟩
      refine ⟨h1, ?_⟩
      by_contra hq
      rw [if_neg hq] at h2
      simp at h2
    · rintro ⟨h1, h2⟩
      exact ⟨h1, by rw [if_pos h2]; rfl⟩
  · rintro row rest key hk ⟨q, hq⟩
    show key ∈ (recKeys row).filter fun k =>
      (jsParseFloat (getVal row k)).isSome && (jsToNumber (getVal row k)).isSome
    rw [List.mem_filter]
    refine ⟨hk, ?_⟩
    rw [hq]
    rfl
  · intro row rest
    rfl
  · intro hne
    unfold identifyTrends
    rw [hdc]
    show (if (getNumericColumns data).isEmpty then [] else
      (getNumericColumns data).flatMap (trendInsightsForColumn data dc)) = _
    rw [if_neg hne]
  · intro hne h5
    unfold generatePredictions
    rw [hdc]
    show (if (getNumericColumns data).isEmpty = true ∨ data.length < 5 then []
      else (getNumericColumns data).flatMap
        (predictionInsightsForColumn data dc)) = _
    rw [if_neg (fun hor => hor.elim (fun h => hne h) (fun h => absurd h (by omega)))]

/-- Witness for **C10** (amended): on `dataTrend` the number `1` is
date-like, column `d` is both the numeric column and the date column, and
the trend analyzer iterates over it. -/
theorem claim10_amended_witness :
    isDateValue (Value.num 1) = true ∧
    getDateColumn dataTrend = some "d" ∧
    identifyTrends dataTrend =
      (getNumericColumns dataTrend).flatMap (trendInsightsForColumn dataTrend "d") := by
  have h := claim10_amended dataTrend "d" (by decide)
  exact ⟨(h.1 1).mpr ⟨by norm_num, by norm_num⟩, by decide,
    h.2.2.2.2.1 (by decide)⟩

end AnalysisEngine
